import Mathlib

/-!
# The mmiotrace instruction decoder (`arch/x86/mm/pf_in.c`)

A shallow embedding of the partial x86 decoder of `pf_in.c` and theorems
about it.

* The instruction bytes are a `List Byte`: the readable memory that starts at
  `ins_addr`.  A read past the end of that memory is a fault, so every
  function that dereferences a pointer returns an `Option`, `none` being the
  fault.  A `NULL` register pointer that is dereferenced is a fault as well.
* The source is compiled in two configurations (`__i386__` and `__amd64__`),
  selected here by a `Build` argument.
* `printk` diagnostics have no effect on any returned value and are left out.
-/

namespace PfIn

/-- The two configurations of the source: `__i386__` and `__amd64__`. -/
inductive Build where
  | i386
  | amd64
  deriving DecidableEq, Repr

/-- An `unsigned char` of the instruction stream. -/
abbrev Byte := Fin 256

/-- Modelled from the spec: `enum reason_type` is declared in `pf_in.h`, which
is not part of the sources at hand; these are the four access classifications
the decoder produces. -/
inductive reason_type where
  | REG_READ
  | REG_WRITE
  | IMM_WRITE
  | OTHERS
  deriving DecidableEq, Repr

/-- Modelled from the spec: `struct pt_regs` is declared in `linux/ptrace.h`,
which is not part of the sources at hand; the register snapshot holds one
`unsigned long` per general-purpose register (`r8`..`r15` exist in the 64-bit
build only). -/
structure pt_regs where
  ax : Nat
  bx : Nat
  cx : Nat
  dx : Nat
  sp : Nat
  bp : Nat
  si : Nat
  di : Nat
  r8 : Nat
  r9 : Nat
  r10 : Nat
  r11 : Nat
  r12 : Nat
  r13 : Nat
  r14 : Nat
  r15 : Nat
  deriving Repr

/-- The fields of `struct pt_regs` a register pointer can point into. -/
inductive RegField where
  | ax | bx | cx | dx | sp | bp | si | di
  | r8 | r9 | r10 | r11 | r12 | r13 | r14 | r15
  deriving DecidableEq, Repr

/-- The value of the field `f` of the snapshot: `regs->f`. -/
def pt_regs.field (regs : pt_regs) : RegField → Nat
  | .ax => regs.ax
  | .bx => regs.bx
  | .cx => regs.cx
  | .dx => regs.dx
  | .sp => regs.sp
  | .bp => regs.bp
  | .si => regs.si
  | .di => regs.di
  | .r8 => regs.r8
  | .r9 => regs.r9
  | .r10 => regs.r10
  | .r11 => regs.r11
  | .r12 => regs.r12
  | .r13 => regs.r13
  | .r14 => regs.r14
  | .r15 => regs.r15

/-- A pointer into the snapshot: `off + (unsigned char *)&regs->fld`. -/
structure RegPtr where
  fld : RegField
  off : Nat
  deriving DecidableEq, Repr

/-- Dereference of a register pointer as an unsigned integer of `w` bytes
(x86 is little-endian); a `NULL` pointer (`none`) faults. -/
def deref (regs : pt_regs) (w : Nat) : Option RegPtr → Option Nat
  | none => none
  | some q => some ((regs.field q.fld / 256 ^ q.off) % 256 ^ w)

/-! ## The tables -/

/-- The table `prefix_codes`. -/
def prefix_codes : Build → List Nat
  | .i386 => [0xF0, 0xF2, 0xF3, 0x2E, 0x36, 0x3E, 0x26, 0x64,
      0x65, 0x2E, 0x3E, 0x66, 0x67]
  | .amd64 => [0x66, 0x67, 0x2E, 0x3E, 0x26, 0x64, 0x65, 0x36,
      0xF0, 0xF3, 0xF2,
      0x40, 0x41, 0x42, 0x43, 0x44, 0x45, 0x46, 0x47,
      0x48, 0x49, 0x4a, 0x4b, 0x4c, 0x4d, 0x4e, 0x4f]

/-- The table `reg_rop`. -/
def reg_rop : Build → List Nat
  | .i386 => [0x8A, 0x8B, 0xB60F, 0xB70F, 0xBE0F, 0xBF0F]
  | .amd64 => [0x8A, 0x8B, 0xB60F, 0xB70F, 0xBE0F, 0xBF0F]

/-- The table `reg_wop`. -/
def reg_wop : Build → List Nat
  | .i386 => [0x88, 0x89]
  | .amd64 => [0x88, 0x89]

/-- The table `imm_wop`. -/
def imm_wop : Build → List Nat
  | .i386 => [0xC6, 0xC7]
  | .amd64 => [0xC6, 0xC7]

/-- The table `rw8`. -/
def rw8 : Build → List Nat
  | .i386 => [0x88, 0x8A, 0xC6]
  | .amd64 => [0xC6, 0x88, 0x8A]

/-- The table `rw32`. -/
def rw32 : Build → List Nat
  | .i386 => [0x89, 0x8B, 0xC7, 0xB60F, 0xB70F, 0xBE0F, 0xBF0F]
  | .amd64 => [0xC7, 0x89, 0x8B, 0xB60F, 0xB70F, 0xBE0F, 0xBF0F]

/-- The table `mw8`. -/
def mw8 : Build → List Nat
  | .i386 => [0x88, 0x8A, 0xC6, 0xB60F, 0xBE0F]
  | .amd64 => [0xC6, 0x88, 0x8A, 0xB60F, 0xBE0F]

/-- The table `mw16`. -/
def mw16 : Build → List Nat
  | .i386 => [0xB70F, 0xBF0F]
  | .amd64 => [0xB70F, 0xBF0F]

/-- The table `mw32`. -/
def mw32 : Build → List Nat
  | .i386 => [0x89, 0x8B, 0xC7]
  | .amd64 => [0xC7]

/-- The table `mw64`. -/
def mw64 : Build → List Nat
  | .i386 => []
  | .amd64 => [0x89, 0x8B]

/-- The search loop `for (i = 0; i < ARRAY_SIZE(array); i++) if (array[i] == v)`:
whether some entry of the table equals `v`. -/
def in_table (v : Nat) : List Nat → Bool
  | [] => false
  | x :: xs => if x = v then true else in_table v xs

/-! ## The prefix scanner and the opcode reader -/

/-- The outputs of `skip_prefix`: its return value and the three flags. -/
structure Prefixes where
  len : Nat
  shorted : Nat
  enlarged : Nat
  rexr : Nat
  deriving DecidableEq, Repr

/-- The loop of `skip_prefix` from the label `restart` on: the list is the
memory from `p` on, `st` holds `p - addr` and the flags so far. -/
def skip_prefix_loop (b : Build) : List Byte → Prefixes → Option Prefixes
  | [], _ => none
  | x :: rest, st =>
    if in_table x.val (prefix_codes b) then
      skip_prefix_loop b rest
        { len := st.len + 1
          shorted := if x.val = 0x66 then 1 else st.shorted
          enlarged := if b = Build.amd64 ∧ x.val &&& 0xf8 = 0x48 then 1 else st.enlarged
          rexr := if b = Build.amd64 ∧ x.val &&& 0xf4 = 0x44 then 1 else st.rexr }
    else
      some st

/-- The function `skip_prefix`. -/
def skip_prefix (b : Build) (bs : List Byte) : Option Prefixes :=
  skip_prefix_loop b bs { len := 0, shorted := 0, enlarged := 0, rexr := 0 }

/-- A little-endian unsigned read of `w` bytes at offset `p`:
`*(unsigned char *)p`, `*(unsigned short *)p`, `*(unsigned int *)p` and
`*(unsigned long *)p` for `w` = 1, 2, 4 and 8. -/
def read_le (bs : List Byte) (p : Nat) : Nat → Option Nat
  | 0 => some 0
  | w + 1 =>
    match bs[p]?, read_le bs (p + 1) w with
    | some x, some v => some (x.val + 256 * v)
    | _, _ => none

/-- The function `get_opcode` at offset `p`: the pair of its return value `len`
and of `*opcode`. -/
def get_opcode (bs : List Byte) (p : Nat) : Option (Nat × Nat) :=
  match bs[p]? with
  | none => none
  | some x =>
    if x.val = 0x0F then
      match read_le bs p 2 with
      | none => none
      | some v => some (2, v)
    else
      some (1, x.val)

/-- The prefix scan followed by the opcode read, with which every query
starts: the scanner outputs, the opcode, and the offset `p` after the opcode. -/
def decode_head (b : Build) (bs : List Byte) : Option (Prefixes × Nat × Nat) :=
  match skip_prefix b bs with
  | none => none
  | some pf =>
    match get_opcode bs pf.len with
    | none => none
    | some (len, opcode) => some (pf, opcode, pf.len + len)

/-! ## The queries -/

/-- The function `get_ins_type`. -/
def get_ins_type (b : Build) (bs : List Byte) : Option reason_type :=
  match decode_head b bs with
  | none => none
  | some (_, opcode, _) =>
    if in_table opcode (reg_rop b) then some reason_type.REG_READ
    else if in_table opcode (reg_wop b) then some reason_type.REG_WRITE
    else if in_table opcode (imm_wop b) then some reason_type.IMM_WRITE
    else some reason_type.OTHERS

/-- The function `get_ins_reg_width`. -/
def get_ins_reg_width (b : Build) (bs : List Byte) : Option Nat :=
  match decode_head b bs with
  | none => none
  | some (pf, opcode, _) =>
    if in_table opcode (rw8 b) then some 1
    else if in_table opcode (rw32 b) then
      some (if pf.shorted ≠ 0 then 2 else (if pf.enlarged ≠ 0 then 8 else 4))
    else some 0

/-- The function `get_ins_mem_width`. -/
def get_ins_mem_width (b : Build) (bs : List Byte) : Option Nat :=
  match decode_head b bs with
  | none => none
  | some (pf, opcode, _) =>
    if in_table opcode (mw8 b) then some 1
    else if in_table opcode (mw16 b) then some 2
    else if in_table opcode (mw32 b) then some (if pf.shorted ≠ 0 then 2 else 4)
    else if in_table opcode (mw64 b) then
      some (if pf.shorted ≠ 0 then 2 else (if pf.enlarged ≠ 0 then 8 else 4))
    else some 0

/-- Register idents in the mod/rm byte: the constants of the anonymous `enum`
(`arg_R8`..`arg_R15` are declared in the 64-bit build only). -/
def arg_AL : Int := 0
/-- Ident of `CL`. -/
def arg_CL : Int := 1
/-- Ident of `DL`. -/
def arg_DL : Int := 2
/-- Ident of `BL`. -/
def arg_BL : Int := 3
/-- Ident of `AH`. -/
def arg_AH : Int := 4
/-- Ident of `CH`. -/
def arg_CH : Int := 5
/-- Ident of `DH`. -/
def arg_DH : Int := 6
/-- Ident of `BH`. -/
def arg_BH : Int := 7
/-- Ident of `AX`. -/
def arg_AX : Int := 0
/-- Ident of `CX`. -/
def arg_CX : Int := 1
/-- Ident of `DX`. -/
def arg_DX : Int := 2
/-- Ident of `BX`. -/
def arg_BX : Int := 3
/-- Ident of `SP`. -/
def arg_SP : Int := 4
/-- Ident of `BP`. -/
def arg_BP : Int := 5
/-- Ident of `SI`. -/
def arg_SI : Int := 6
/-- Ident of `DI`. -/
def arg_DI : Int := 7
/-- Ident of `R8`. -/
def arg_R8 : Int := 8
/-- Ident of `R9`. -/
def arg_R9 : Int := 9
/-- Ident of `R10`. -/
def arg_R10 : Int := 10
/-- Ident of `R11`. -/
def arg_R11 : Int := 11
/-- Ident of `R12`. -/
def arg_R12 : Int := 12
/-- Ident of `R13`. -/
def arg_R13 : Int := 13
/-- Ident of `R14`. -/
def arg_R14 : Int := 14
/-- Ident of `R15`. -/
def arg_R15 : Int := 15

/-- The function `get_reg_w8`; `none` is `NULL`. The `switch` is written as a
chain of tests in the order of its `case` labels. -/
def get_reg_w8 (b : Build) (no : Int) : Option RegPtr :=
  if no = arg_AL then some ⟨.ax, 0⟩
  else if no = arg_BL then some ⟨.bx, 0⟩
  else if no = arg_CL then some ⟨.cx, 0⟩
  else if no = arg_DL then some ⟨.dx, 0⟩
  else if no = arg_AH then some ⟨.ax, 1⟩
  else if no = arg_BH then some ⟨.bx, 1⟩
  else if no = arg_CH then some ⟨.cx, 1⟩
  else if no = arg_DH then some ⟨.dx, 1⟩
  else if b = Build.amd64 ∧ no = arg_R8 then some ⟨.r8, 0⟩
  else if b = Build.amd64 ∧ no = arg_R9 then some ⟨.r9, 0⟩
  else if b = Build.amd64 ∧ no = arg_R10 then some ⟨.r10, 0⟩
  else if b = Build.amd64 ∧ no = arg_R11 then some ⟨.r11, 0⟩
  else if b = Build.amd64 ∧ no = arg_R12 then some ⟨.r12, 0⟩
  else if b = Build.amd64 ∧ no = arg_R13 then some ⟨.r13, 0⟩
  else if b = Build.amd64 ∧ no = arg_R14 then some ⟨.r14, 0⟩
  else if b = Build.amd64 ∧ no = arg_R15 then some ⟨.r15, 0⟩
  else none

/-- The function `get_reg_w32`; `none` is `NULL`. The `switch` is written as a
chain of tests in the order of its `case` labels. -/
def get_reg_w32 (b : Build) (no : Int) : Option RegPtr :=
  if no = arg_AX then some ⟨.ax, 0⟩
  else if no = arg_BX then some ⟨.bx, 0⟩
  else if no = arg_CX then some ⟨.cx, 0⟩
  else if no = arg_DX then some ⟨.dx, 0⟩
  else if no = arg_SP then some ⟨.sp, 0⟩
  else if no = arg_BP then some ⟨.bp, 0⟩
  else if no = arg_SI then some ⟨.si, 0⟩
  else if no = arg_DI then some ⟨.di, 0⟩
  else if b = Build.amd64 ∧ no = arg_R8 then some ⟨.r8, 0⟩
  else if b = Build.amd64 ∧ no = arg_R9 then some ⟨.r9, 0⟩
  else if b = Build.amd64 ∧ no = arg_R10 then some ⟨.r10, 0⟩
  else if b = Build.amd64 ∧ no = arg_R11 then some ⟨.r11, 0⟩
  else if b = Build.amd64 ∧ no = arg_R12 then some ⟨.r12, 0⟩
  else if b = Build.amd64 ∧ no = arg_R13 then some ⟨.r13, 0⟩
  else if b = Build.amd64 ∧ no = arg_R14 then some ⟨.r14, 0⟩
  else if b = Build.amd64 ∧ no = arg_R15 then some ⟨.r15, 0⟩
  else none

/-- The function `get_ins_reg_val`. -/
def get_ins_reg_val (b : Build) (bs : List Byte) (regs : pt_regs) : Option Nat :=
  match decode_head b bs with
  | none => none
  | some (pf, opcode, p) =>
    if in_table opcode (reg_rop b) || in_table opcode (reg_wop b) then
      match bs[p]? with
      | none => none
      | some mod_rm =>
        let reg : Int := (((mod_rm.val >>> 3) &&& 0x7) ||| (pf.rexr <<< 3) : Nat)
        match get_ins_reg_width b bs with
        | none => none
        | some w =>
          if w = 1 then deref regs 1 (get_reg_w8 b reg)
          else if w = 2 then deref regs 2 (get_reg_w32 b reg)
          else if w = 4 then deref regs 4 (get_reg_w32 b reg)
          else if b = Build.amd64 ∧ w = 8 then deref regs 8 (get_reg_w32 b reg)
          else some 0
    else some 0

/-- The function `get_ins_imm_val`. -/
def get_ins_imm_val (b : Build) (bs : List Byte) : Option Nat :=
  match decode_head b bs with
  | none => none
  | some (_, opcode, p) =>
    if in_table opcode (imm_wop b) then
      match bs[p]? with
      | none => none
      | some mod_rm =>
        let mod := mod_rm.val >>> 6
        let p1 := p + 1
        let p2 :=
          if mod = 0 then (if mod_rm.val &&& 0x7 = 0x5 then p1 + 4 else p1)
          else if mod = 1 then p1 + 1
          else if mod = 2 then p1 + 4
          else p1
        match get_ins_reg_width b bs with
        | none => none
        | some w =>
          if w = 1 then read_le bs p2 1
          else if w = 2 then read_le bs p2 2
          else if w = 4 then read_le bs p2 4
          else if b = Build.amd64 ∧ w = 8 then read_le bs p2 8
          else some 0
    else some 0

/-! ## Notions used to state the properties -/

/-- Whether a byte is an entry of the table `prefix_codes` of the build. -/
def is_prefix_code (b : Build) (x : Byte) : Bool :=
  in_table x.val (prefix_codes b)

/-- The prefix run of a byte sequence: its longest leading run of bytes that
are entries of `prefix_codes`. -/
def prefix_run (b : Build) (bs : List Byte) : List Byte :=
  bs.takeWhile (is_prefix_code b)

/-- The scanner outputs that belong to a prefix run: its length, and each flag
set when a byte of the run sets it. -/
def run_info (b : Build) (run : List Byte) : Prefixes :=
  { len := run.length
    shorted := if run.any (fun x => decide (x.val = 0x66)) then 1 else 0
    enlarged :=
      if b = Build.amd64 ∧ run.any (fun x => decide (x.val &&& 0xf8 = 0x48)) then 1 else 0
    rexr :=
      if b = Build.amd64 ∧ run.any (fun x => decide (x.val &&& 0xf4 = 0x44)) then 1 else 0 }

/-- What a prefix byte that sets no flag does to the scanner outputs: one more
byte consumed, the flags unchanged. -/
def one_more (pf : Prefixes) : Prefixes :=
  { pf with len := pf.len + 1 }

/-- A search of several tables one after the other, each paired with the result
its match stands for: the first table that holds `v` decides, and `d` is the
result when no table holds `v`.  The three table-driven queries are instances
of it, with their tables in the order of the source. -/
def first_match {α : Type} : List (List Nat × α) → Nat → α → α
  | [], _, d => d
  | x :: rest, v, d => if in_table v x.1 then x.2 else first_match rest v d

/-- A register snapshot to evaluate the decoder on: every register holds its
own index in each of its eight bytes, `ax` apart, which holds `0x1234`. -/
def snapshot_example : pt_regs :=
  { ax := 0x1234
    cx := 0x0101010101010101
    dx := 0x0202020202020202
    bx := 0x0303030303030303
    sp := 0x0404040404040404
    bp := 0x0505050505050505
    si := 0x0606060606060606
    di := 0x0707070707070707
    r8 := 0x0808080808080808
    r9 := 0x0909090909090909
    r10 := 0x0a0a0a0a0a0a0a0a
    r11 := 0x0b0b0b0b0b0b0b0b
    r12 := 0x0c0c0c0c0c0c0c0c
    r13 := 0x0d0d0d0d0d0d0d0d
    r14 := 0x0e0e0e0e0e0e0e0e
    r15 := 0x0f0f0f0f0f0f0f0f }

end PfIn

/-! # The peripheral clock dividers (`arch/arm/mach-mx2/clock_imx21.c`)

`unsigned long` and `u32` are 32 bits wide on this platform.  The parent rate
`clk_get_rate(clk->parent)`, the error number `EINVAL` and the mask
`CCM_PCDR1_PERDIV1_MASK` (declared in headers that are not among the sources at
hand) are parameters.  A division by zero is a fault (`none`). -/

namespace ClockImx21

/-- The function `_clk_perclkx_round_rate`, for the parent rate `parent_rate`. -/
def _clk_perclkx_round_rate (parent_rate rate : Nat) : Option Nat :=
  if rate = 0 then none
  else
    let div0 := (parent_rate / rate) % 2 ^ 32
    let div1 := if parent_rate % rate ≠ 0 then (div0 + 1) % 2 ^ 32 else div0
    let div2 := if div1 > 64 then 64 else div1
    if div2 = 0 then none else some (parent_rate / div2)

/-- The function `_clk_perclkx_set_rate`, for the clock `id`, the parent rate
`parent_rate` and the value `pcdr1` of the register `CCM_PCDR1`: the return
value and the value of the register afterwards. -/
def _clk_perclkx_set_rate (EINVAL : Int) (PERDIV1_MASK : Nat) (id : Int)
    (parent_rate rate pcdr1 : Nat) : Option (Int × Nat) :=
  if id < 0 ∨ id > 3 then some (-EINVAL, pcdr1)
  else if rate = 0 then none
  else
    let div := (parent_rate / rate) % 2 ^ 32
    if div > 64 ∨ div < 1 ∨ parent_rate / div ≠ rate then some (-EINVAL, pcdr1)
    else
      let div1 := div - 1
      let sh := id.toNat <<< 3
      let reg := pcdr1 &&& (2 ^ 32 - 1 - (PERDIV1_MASK <<< sh) % 2 ^ 32)
      some (0, (reg ||| (div1 <<< sh)) % 2 ^ 32)

end ClockImx21

namespace PfIn

/-! ## Auxiliary lemmas -/

theorem in_table_iff (v : Nat) (t : List Nat) : in_table v t = true ↔ v ∈ t := by
  induction t with
  | nil => simp [in_table]
  | cons x xs ih =>
    by_cases h : x = v
    · simp [in_table, h]
    · have h2 : ¬ v = x := fun e => h e.symm
      simp [in_table, h, h2, ih]

theorem skip_prefix_loop_eq (b : Build) (bs : List Byte) (st : Prefixes) :
    skip_prefix_loop b bs st =
      if (prefix_run b bs).length < bs.length then
        some
          { len := st.len + (prefix_run b bs).length
            shorted :=
              if (prefix_run b bs).any (fun x => decide (x.val = 0x66)) then 1 else st.shorted
            enlarged :=
              if b = Build.amd64 ∧
                  (prefix_run b bs).any (fun x => decide (x.val &&& 0xf8 = 0x48)) then 1
              else st.enlarged
            rexr :=
              if b = Build.amd64 ∧
                  (prefix_run b bs).any (fun x => decide (x.val &&& 0xf4 = 0x44)) then 1
              else st.rexr }
      else none := by
  induction bs generalizing st with
  | nil => simp [skip_prefix_loop, prefix_run]
  | cons x rest ih =>
    by_cases hx : in_table x.val (prefix_codes b) = true
    · have hrun : prefix_run b (x :: rest) = x :: prefix_run b rest := by
        simp [prefix_run, List.takeWhile_cons, is_prefix_code, hx]
      rw [skip_prefix_loop, if_pos hx, ih, hrun]
      simp only [List.length_cons, Nat.succ_lt_succ_iff, List.any_cons, Bool.or_eq_true,
        decide_eq_true_eq]
      by_cases hlt : (prefix_run b rest).length < rest.length
      · simp only [hlt, if_true]
        congr 2
        · omega
        · by_cases h1 : x.val = 0x66 <;> simp [h1]
        · by_cases h1 : x.val &&& 0xf8 = 0x48 <;> by_cases h2 : b = Build.amd64 <;> simp [h1, h2]
        · by_cases h1 : x.val &&& 0xf4 = 0x44 <;> by_cases h2 : b = Build.amd64 <;> simp [h1, h2]
      · simp [hlt]
    · have hrun : prefix_run b (x :: rest) = [] := by
        simp [prefix_run, List.takeWhile_cons, is_prefix_code, hx]
      rw [skip_prefix_loop, if_neg hx, hrun]
      simp

theorem skip_prefix_eq (b : Build) (bs : List Byte) :
    skip_prefix b bs =
      if (prefix_run b bs).length < bs.length then some (run_info b (prefix_run b bs))
      else none := by
  rw [ skip_prefix, skip_prefix_loop_eq]
  simp [run_info]

theorem get_opcode_none (bs : List Byte) (p : Nat) (h : bs.length ≤ p) :
    get_opcode bs p = none := by
  have : bs[p]? = none := List.getElem?_eq_none h
  simp [get_opcode, this]

theorem get_opcode_one (bs : List Byte) (p : Nat) (x : Byte) (h : bs[p]? = some x)
    (hx : x.val ≠ 0x0F) : get_opcode bs p = some (1, x.val) := by
  simp [get_opcode, h, hx]

theorem get_opcode_two (bs : List Byte) (p : Nat) (x y : Byte) (h : bs[p]? = some x)
    (hx : x.val = 0x0F) (hy : bs[p + 1]? = some y) :
    get_opcode bs p = some (2, 0x0F + 256 * y.val) := by
  simp [get_opcode, h, hx, read_le, hy]

theorem get_opcode_two_none (bs : List Byte) (p : Nat) (x : Byte) (h : bs[p]? = some x)
    (hx : x.val = 0x0F) (hy : bs[p + 1]? = none) : get_opcode bs p = none := by
  simp [get_opcode, h, hx, read_le, hy]

theorem decode_head_eq (b : Build) (bs : List Byte) :
    decode_head b bs =
      match get_opcode bs (prefix_run b bs).length with
      | none => none
      | some (len, opcode) =>
        some (run_info b (prefix_run b bs), opcode, (prefix_run b bs).length + len) := by
  rw [decode_head, skip_prefix_eq]
  by_cases hlt : (prefix_run b bs).length < bs.length
  · simp only [hlt, if_true]
    rfl
  · simp only [hlt, if_false]
    rw [get_opcode_none bs _ (by omega)]

set_option maxRecDepth 100000 in
theorem rex_w_mask : ∀ x : Byte, (x.val &&& 0xf8 = 0x48 ↔ (0x48 ≤ x.val ∧ x.val ≤ 0x4F)) := by
  decide

set_option maxRecDepth 100000 in
theorem rex_r_mask : ∀ x : Byte,
    (x.val &&& 0xf4 = 0x44 ↔
      ((0x44 ≤ x.val ∧ x.val ≤ 0x47) ∨ (0x4C ≤ x.val ∧ x.val ≤ 0x4F))) := by
  decide

set_option maxRecDepth 100000 in
theorem modrm_fields : ∀ x : Byte,
    ((x.val >>> 3) &&& 0x7 = x.val / 8 % 8) ∧ (x.val >>> 6 = x.val / 64) ∧
      (x.val &&& 0x7 = x.val % 8) := by
  decide

theorem shorted_ne_zero_iff (b : Build) (run : List Byte) :
    (run_info b run).shorted ≠ 0 ↔ (0x66 : Byte) ∈ run := by
  have key : (run.any (fun x => decide (x.val = 0x66)) = true) ↔ (0x66 : Byte) ∈ run := by
    simp only [List.any_eq_true, decide_eq_true_eq]
    constructor
    · rintro ⟨x, hx, h⟩
      obtain rfl : x = 0x66 := Fin.ext h
      exact hx
    · intro h
      exact ⟨_, h, rfl⟩
  rw [← key]
  by_cases h : run.any (fun x => decide (x.val = 0x66)) = true <;> simp [run_info, h]

theorem enlarged_ne_zero_iff (b : Build) (run : List Byte) :
    (run_info b run).enlarged ≠ 0 ↔
      (b = Build.amd64 ∧ ∃ x ∈ run, 0x48 ≤ x.val ∧ x.val ≤ 0x4F) := by
  have key : (run.any (fun x => decide (x.val &&& 0xf8 = 0x48)) = true) ↔
      ∃ x ∈ run, 0x48 ≤ x.val ∧ x.val ≤ 0x4F := by
    simp only [List.any_eq_true, decide_eq_true_eq, rex_w_mask]
  rw [← key]
  by_cases h : run.any (fun x => decide (x.val &&& 0xf8 = 0x48)) = true <;>
    by_cases hb : b = Build.amd64 <;> simp [run_info, h, hb]

theorem rexr_eq (b : Build) (run : List Byte) :
    (run_info b run).rexr =
      if b = Build.amd64 ∧
        ∃ x ∈ run, (0x44 ≤ x.val ∧ x.val ≤ 0x47) ∨ (0x4C ≤ x.val ∧ x.val ≤ 0x4F) then 1
      else 0 := by
  have key : (run.any (fun x => decide (x.val &&& 0xf4 = 0x44)) = true) ↔
      ∃ x ∈ run, (0x44 ≤ x.val ∧ x.val ≤ 0x47) ∨ (0x4C ≤ x.val ∧ x.val ≤ 0x4F) := by
    simp only [List.any_eq_true, decide_eq_true_eq, rex_r_mask]
  simp only [run_info, key]

theorem enlarged_i386 (run : List Byte) : (run_info Build.i386 run).enlarged = 0 := by
  simp [run_info]

theorem rexr_i386 (run : List Byte) : (run_info Build.i386 run).rexr = 0 := by
  simp [run_info]

theorem decode_head_none (b : Build) (bs : List Byte)
    (h : get_opcode bs (prefix_run b bs).length = none) : decode_head b bs = none := by
  rw [decode_head_eq, h]

theorem get_opcode_byte (bs : List Byte) (p : Nat) (x : Byte) (h : bs[p]? = some x)
    (hx : x.val ≠ 0x0F) : get_opcode bs p = some (1, x.val) :=
  get_opcode_one bs p x h hx

theorem decode_head_some {b : Build} {bs : List Byte} {pf : Prefixes} {op p : Nat}
    (h : decode_head b bs = some (pf, op, p)) :
    ∃ len, get_opcode bs (prefix_run b bs).length = some (len, op) ∧
      pf = run_info b (prefix_run b bs) ∧ p = (prefix_run b bs).length + len := by
  rw [decode_head_eq] at h
  rcases h1 : get_opcode bs (prefix_run b bs).length with _ | ⟨len, op1⟩
  · rw [h1] at h
    cases h
  · rw [h1] at h
    simp only [Option.some.injEq, Prod.mk.injEq] at h
    obtain ⟨h2, h3, h4⟩ := h
    exact ⟨len, by rw [h3], h2.symm, h4.symm⟩

theorem rexr_cases (b : Build) (run : List Byte) :
    (run_info b run).rexr = 0 ∨ ((run_info b run).rexr = 1 ∧ b = Build.amd64) := by
  simp only [run_info]
  split_ifs with h
  · exact Or.inr ⟨rfl, h.1⟩
  · exact Or.inl rfl

set_option maxRecDepth 100000 in
theorem reg_index_eq (m : Byte) (r : Nat) (hr : r = 0 ∨ r = 1) :
    ((m.val >>> 3) &&& 0x7) ||| (r <<< 3) = m.val / 8 % 8 + 8 * r := by
  rcases hr with rfl | rfl <;> revert m <;> decide

theorem deref_w32 (b : Build) (regs : pt_regs) (w f r : Nat) (hf : f < 8)
    (hr : r = 0 ∨ (r = 1 ∧ b = Build.amd64)) :
    deref regs w (get_reg_w32 b ((f + 8 * r : Nat) : Int)) =
      some ([regs.ax, regs.cx, regs.dx, regs.bx, regs.sp, regs.bp, regs.si, regs.di,
        regs.r8, regs.r9, regs.r10, regs.r11, regs.r12, regs.r13, regs.r14,
        regs.r15].getD (f + 8 * r) 0 % 256 ^ w) := by
  rcases hr with rfl | ⟨rfl, rfl⟩ <;> interval_cases f <;>
    simp [get_reg_w32, deref, pt_regs.field, arg_AX, arg_BX, arg_CX, arg_DX, arg_SP, arg_BP,
      arg_SI, arg_DI, arg_R8, arg_R9, arg_R10, arg_R11, arg_R12, arg_R13, arg_R14, arg_R15]

theorem deref_w8 (b : Build) (regs : pt_regs) (f : Nat) (hf : f < 8) :
    deref regs 1 (get_reg_w8 b ((f : Nat) : Int)) =
      some (if f < 4 then [regs.ax, regs.cx, regs.dx, regs.bx].getD f 0 % 256
        else [regs.ax, regs.cx, regs.dx, regs.bx].getD (f - 4) 0 / 256 % 256) := by
  interval_cases f <;>
    simp [get_reg_w8, deref, pt_regs.field, arg_AL, arg_BL, arg_CL, arg_DL, arg_AH, arg_BH,
      arg_CH, arg_DH]

theorem read_le_eq (bs : List Byte) (w p : Nat) (h : p + w ≤ bs.length) :
    read_le bs p w = some (Nat.ofDigits 256 (((bs.drop p).take w).map Fin.val)) := by
  induction w generalizing p with
  | zero => simp [read_le]
  | succ w ih =>
    have hp : p < bs.length := by omega
    have hdrop : bs.drop p = bs[p] :: bs.drop (p + 1) := List.drop_eq_getElem_cons hp
    rw [read_le, List.getElem?_eq_getElem hp, ih (p + 1) (by omega), hdrop]
    simp only [List.take_succ_cons, List.map_cons, Nat.ofDigits_cons]

theorem read_le_cons (x : Byte) (bs : List Byte) (w p : Nat) :
    read_le (x :: bs) (p + 1) w = read_le bs p w := by
  induction w generalizing p with
  | zero => simp [read_le]
  | succ w ih => simp [read_le, ih]

theorem get_opcode_cons (x : Byte) (bs : List Byte) (p : Nat) :
    get_opcode (x :: bs) (p + 1) = get_opcode bs p := by
  simp [get_opcode, read_le_cons]

theorem decode_head_cons_quiet (b : Build) (x : Byte) (bs : List Byte)
    (h1 : in_table x.val (prefix_codes b) = true) (h2 : x.val ≠ 0x66)
    (h3 : ¬ (b = Build.amd64 ∧ x.val &&& 0xf8 = 0x48))
    (h4 : ¬ (b = Build.amd64 ∧ x.val &&& 0xf4 = 0x44)) :
    skip_prefix b (x :: bs) = ( skip_prefix b bs).map one_more ∧
    decode_head b (x :: bs) =
      (decode_head b bs).map (fun r => (one_more r.1, r.2.1, r.2.2 + 1)) := by
  have hrun : prefix_run b (x :: bs) = x :: prefix_run b bs := by
    simp [prefix_run, List.takeWhile_cons, is_prefix_code, h1]
  have hinfo : run_info b (x :: prefix_run b bs) = one_more (run_info b (prefix_run b bs)) := by
    have h3a : b = Build.amd64 → ¬ x.val &&& 0xf8 = 0x48 := fun hb hm => h3 ⟨hb, hm⟩
    have h4a : b = Build.amd64 → ¬ x.val &&& 0xf4 = 0x44 := fun hb hm => h4 ⟨hb, hm⟩
    by_cases hb : b = Build.amd64
    · simp [run_info, one_more, h2, h3a hb, h4a hb]
    · simp [run_info, one_more, h2, hb]
  constructor
  · rw [skip_prefix_eq, skip_prefix_eq, hrun, hinfo]
    by_cases hlt : (prefix_run b bs).length < bs.length
    · simp [hlt]
    · simp [hlt]
  · rw [decode_head_eq, decode_head_eq, hrun, hinfo, List.length_cons, get_opcode_cons]
    rcases get_opcode bs (prefix_run b bs).length with _ | ⟨len, op⟩
    · rfl
    · simp [Nat.add_right_comm]

theorem queries_cons_quiet (b : Build) (x : Byte) (bs : List Byte) (regs : pt_regs)
    (h1 : in_table x.val (prefix_codes b) = true) (h2 : x.val ≠ 0x66)
    (h3 : ¬ (b = Build.amd64 ∧ x.val &&& 0xf8 = 0x48))
    (h4 : ¬ (b = Build.amd64 ∧ x.val &&& 0xf4 = 0x44)) :
    get_ins_type b (x :: bs) = get_ins_type b bs ∧
    get_ins_reg_width b (x :: bs) = get_ins_reg_width b bs ∧
    get_ins_mem_width b (x :: bs) = get_ins_mem_width b bs ∧
    get_ins_reg_val b (x :: bs) regs = get_ins_reg_val b bs regs ∧
    get_ins_imm_val b (x :: bs) = get_ins_imm_val b bs := by
  have hd := (decode_head_cons_quiet b x bs h1 h2 h3 h4).2
  have hw : get_ins_reg_width b (x :: bs) = get_ins_reg_width b bs := by
    rw [get_ins_reg_width, get_ins_reg_width, hd]
    rcases decode_head b bs with _ | ⟨pf, op, p⟩ <;> simp [one_more]
  refine ⟨?_, hw, ?_, ?_, ?_⟩
  · rw [get_ins_type, get_ins_type, hd]
    rcases decode_head b bs with _ | ⟨pf, op, p⟩ <;> simp
  · rw [get_ins_mem_width, get_ins_mem_width, hd]
    rcases decode_head b bs with _ | ⟨pf, op, p⟩ <;> simp [one_more]
  · rw [get_ins_reg_val, get_ins_reg_val, hd, hw]
    rcases decode_head b bs with _ | ⟨pf, op, p⟩ <;> simp [one_more]
  · rw [get_ins_imm_val, get_ins_imm_val, hd, hw]
    rcases decode_head b bs with _ | ⟨pf, op, p⟩
    · simp
    · simp only [Option.map_some', List.getElem?_cons_succ]
      have e1 : p + 1 + 1 + 4 = (p + 1 + 4) + 1 := by omega
      have e2 : p + 1 + 1 + 1 = (p + 1 + 1) + 1 := by omega
      simp only [e1, e2, apply_ite (fun q => read_le (x :: bs) q 1),
        apply_ite (fun q => read_le (x :: bs) q 2), apply_ite (fun q => read_le (x :: bs) q 4),
        apply_ite (fun q => read_le (x :: bs) q 8), read_le_cons,
        apply_ite (fun q => read_le bs q 1),
        apply_ite (fun q => read_le bs q 2), apply_ite (fun q => read_le bs q 4),
        apply_ite (fun q => read_le bs q 8)]

/-! ## Classification -/

theorem get_ins_type_of_opcode (b : Build) (bs : List Byte) (len op : Nat)
    (h : get_opcode bs (prefix_run b bs).length = some (len, op)) :
    get_ins_type b bs =
      some (if op ∈ [0x8A, 0x8B, 0xB60F, 0xB70F, 0xBE0F, 0xBF0F] then reason_type.REG_READ
        else if op ∈ [0x88, 0x89] then reason_type.REG_WRITE
        else if op ∈ [0xC6, 0xC7] then reason_type.IMM_WRITE
        else reason_type.OTHERS) := by
  rw [get_ins_type, decode_head_eq, h]
  have e1 : (in_table op (reg_rop b) = true) ↔ op ∈ [0x8A, 0x8B, 0xB60F, 0xB70F, 0xBE0F, 0xBF0F] := by
    rw [in_table_iff]; cases b <;> rfl
  have e2 : (in_table op (reg_wop b) = true) ↔ op ∈ [0x88, 0x89] := by
    rw [in_table_iff]; cases b <;> rfl
  have e3 : (in_table op (imm_wop b) = true) ↔ op ∈ [0xC6, 0xC7] := by
    rw [in_table_iff]; cases b <;> rfl
  simp only [e1, e2, e3]
  split_ifs <;> rfl

/-- C1: in both builds and for every byte sequence, with `k` the length of the
prefix run, `get_ins_type` returns `REG_READ` exactly when the opcode at `k` is
8A, 8B, 0F B6, 0F B7, 0F BE or 0F BF, `REG_WRITE` exactly when it is 88 or 89,
`IMM_WRITE` exactly when it is C6 or C7, and `OTHERS` exactly when there is an
opcode at `k` (one byte, or 0F and a second byte) that is none of these. -/
theorem get_ins_type_by_opcode (b : Build) (bs : List Byte) :
    (get_ins_type b bs = some reason_type.REG_READ ↔
      bs[(prefix_run b bs).length]? = some 0x8A ∨
      bs[(prefix_run b bs).length]? = some 0x8B ∨
      (bs[(prefix_run b bs).length]? = some 0x0F ∧
        (bs[(prefix_run b bs).length + 1]? = some 0xB6 ∨
         bs[(prefix_run b bs).length + 1]? = some 0xB7 ∨
         bs[(prefix_run b bs).length + 1]? = some 0xBE ∨
         bs[(prefix_run b bs).length + 1]? = some 0xBF))) ∧
    (get_ins_type b bs = some reason_type.REG_WRITE ↔
      bs[(prefix_run b bs).length]? = some 0x88 ∨
      bs[(prefix_run b bs).length]? = some 0x89) ∧
    (get_ins_type b bs = some reason_type.IMM_WRITE ↔
      bs[(prefix_run b bs).length]? = some 0xC6 ∨
      bs[(prefix_run b bs).length]? = some 0xC7) ∧
    (get_ins_type b bs = some reason_type.OTHERS ↔
      ∃ x, bs[(prefix_run b bs).length]? = some x ∧
        x ∉ [(0x8A : Byte), 0x8B, 0x88, 0x89, 0xC6, 0xC7] ∧
        (x = 0x0F → ∃ y, bs[(prefix_run b bs).length + 1]? = some y ∧
          y ∉ [(0xB6 : Byte), 0xB7, 0xBE, 0xBF])) := by
  generalize hk : (prefix_run b bs).length = k
  rcases h0 : bs[k]? with _ | x
  · have hn : get_ins_type b bs = none := by
      rw [get_ins_type, decode_head_eq, hk, get_opcode_none bs k (by simpa using h0)]
    simp [hn]
  · by_cases hx : x.val = 0x0F
    · have hx2 : x = 0x0F := Fin.ext hx
      subst hx2
      rcases h1 : bs[k + 1]? with _ | y
      · have hn : get_ins_type b bs = none := by
          rw [get_ins_type, decode_head_eq, hk, get_opcode_two_none bs k _ h0 rfl h1]
        simp [hn]
      · rw [get_ins_type_of_opcode b bs 2 (0x0F + 256 * y.val)
          (by rw [hk]; exact get_opcode_two bs k _ y h0 rfl h1)]
        have hy := y.isLt
        rcases (by omega : y.val = 0xB6 ∨ y.val = 0xB7 ∨ y.val = 0xBE ∨ y.val = 0xBF ∨
          (y.val ≠ 0xB6 ∧ y.val ≠ 0xB7 ∧ y.val ≠ 0xBE ∧ y.val ≠ 0xBF)) with h | h | h | h | h
        · obtain rfl : y = 0xB6 := Fin.ext h
          simp [Fin.coe_ofNat_eq_mod]
        · obtain rfl : y = 0xB7 := Fin.ext h
          simp [Fin.coe_ofNat_eq_mod]
        · obtain rfl : y = 0xBE := Fin.ext h
          simp [Fin.coe_ofNat_eq_mod]
        · obtain rfl : y = 0xBF := Fin.ext h
          simp [Fin.coe_ofNat_eq_mod]
        · obtain ⟨a1, a2, a3, a4⟩ := h
          have c1 : ¬ (0x0F + 256 * y.val ∈ [0x8A, 0x8B, 0xB60F, 0xB70F, 0xBE0F, 0xBF0F]) := by
            simp; omega
          have c2 : ¬ (0x0F + 256 * y.val ∈ [0x88, 0x89]) := by simp; omega
          have c3 : ¬ (0x0F + 256 * y.val ∈ [0xC6, 0xC7]) := by simp; omega
          simp only [c1, c2, c3, if_false]
          simp only [h0, h1, Option.some.injEq, exists_eq_left']
          simp [Fin.ext_iff, Fin.coe_ofNat_eq_mod, a1, a2, a3, a4]
    · rw [get_ins_type_of_opcode b bs 1 x.val
        (by rw [hk]; exact get_opcode_one bs k x h0 hx)]
      have hx3 := x.isLt
      rcases (by omega : x.val = 0x8A ∨ x.val = 0x8B ∨ x.val = 0x88 ∨ x.val = 0x89 ∨
        x.val = 0xC6 ∨ x.val = 0xC7 ∨ (x.val ≠ 0x8A ∧ x.val ≠ 0x8B ∧ x.val ≠ 0x88 ∧
          x.val ≠ 0x89 ∧ x.val ≠ 0xC6 ∧ x.val ≠ 0xC7)) with h | h | h | h | h | h | h
      · obtain rfl : x = 0x8A := Fin.ext h
        simp [Fin.coe_ofNat_eq_mod]
      · obtain rfl : x = 0x8B := Fin.ext h
        simp [Fin.coe_ofNat_eq_mod]
      · obtain rfl : x = 0x88 := Fin.ext h
        simp [Fin.coe_ofNat_eq_mod]
      · obtain rfl : x = 0x89 := Fin.ext h
        simp [Fin.coe_ofNat_eq_mod]
      · obtain rfl : x = 0xC6 := Fin.ext h
        simp [Fin.coe_ofNat_eq_mod]
      · obtain rfl : x = 0xC7 := Fin.ext h
        simp [Fin.coe_ofNat_eq_mod]
      · obtain ⟨a1, a2, a3, a4, a5, a6⟩ := h
        have c1 : ¬ (x.val ∈ [0x8A, 0x8B, 0xB60F, 0xB70F, 0xBE0F, 0xBF0F]) := by
          simp; omega
        have c2 : ¬ (x.val ∈ [0x88, 0x89]) := by simp; omega
        have c3 : ¬ (x.val ∈ [0xC6, 0xC7]) := by simp; omega
        simp only [c1, c2, c3, if_false]
        simp only [h0, Option.some.injEq, exists_eq_left']
        simp [Fin.ext_iff, Fin.coe_ofNat_eq_mod, a1, a2, a3, a4, a5, a6, hx]

/-! ## Operand widths -/

theorem get_ins_mem_width_of_opcode (b : Build) (bs : List Byte) (len op : Nat)
    (h : get_opcode bs (prefix_run b bs).length = some (len, op)) :
    get_ins_mem_width b bs =
      some (if op ∈ [0x88, 0x8A, 0xC6, 0xB60F, 0xBE0F] then 1
        else if op ∈ [0xB70F, 0xBF0F] then 2
        else if op = 0xC7 ∨ (b = Build.i386 ∧ (op = 0x89 ∨ op = 0x8B)) then
          (if (run_info b (prefix_run b bs)).shorted ≠ 0 then 2 else 4)
        else if b = Build.amd64 ∧ (op = 0x89 ∨ op = 0x8B) then
          (if (run_info b (prefix_run b bs)).shorted ≠ 0 then 2
            else if (run_info b (prefix_run b bs)).enlarged ≠ 0 then 8 else 4)
        else 0) := by
  rw [get_ins_mem_width, decode_head_eq, h]
  have e1 : (in_table op (mw8 b) = true) ↔ op ∈ [0x88, 0x8A, 0xC6, 0xB60F, 0xBE0F] := by
    rw [in_table_iff]; cases b <;> simp [mw8]; tauto
  have e2 : (in_table op (mw16 b) = true) ↔ op ∈ [0xB70F, 0xBF0F] := by
    rw [in_table_iff]; cases b <;> simp [mw16]
  have e3 : (in_table op (mw32 b) = true) ↔
      (op = 0xC7 ∨ (b = Build.i386 ∧ (op = 0x89 ∨ op = 0x8B))) := by
    rw [in_table_iff]; cases b <;> simp [mw32]; tauto
  have e4 : (in_table op (mw64 b) = true) ↔ (b = Build.amd64 ∧ (op = 0x89 ∨ op = 0x8B)) := by
    rw [in_table_iff]; cases b <;> simp [mw64]
  simp only [e1, e2, e3, e4]
  split_ifs <;> rfl

theorem get_ins_reg_width_of_opcode (b : Build) (bs : List Byte) (len op : Nat)
    (h : get_opcode bs (prefix_run b bs).length = some (len, op)) :
    get_ins_reg_width b bs =
      some (if op ∈ [0x88, 0x8A, 0xC6] then 1
        else if op ∈ [0x89, 0x8B, 0xC7, 0xB60F, 0xB70F, 0xBE0F, 0xBF0F] then
          (if (run_info b (prefix_run b bs)).shorted ≠ 0 then 2
            else if (run_info b (prefix_run b bs)).enlarged ≠ 0 then 8 else 4)
        else 0) := by
  rw [get_ins_reg_width, decode_head_eq, h]
  have e1 : (in_table op (rw8 b) = true) ↔ op ∈ [0x88, 0x8A, 0xC6] := by
    rw [in_table_iff]; cases b <;> simp [rw8]; tauto
  have e2 : (in_table op (rw32 b) = true) ↔
      op ∈ [0x89, 0x8B, 0xC7, 0xB60F, 0xB70F, 0xBE0F, 0xBF0F] := by
    rw [in_table_iff]; cases b <;> simp [rw32]; tauto
  simp only [e1, e2]
  split_ifs <;> rfl

theorem opcode_cases (op : Nat) :
    op = 0x88 ∨ op = 0x89 ∨ op = 0x8A ∨ op = 0x8B ∨ op = 0xC6 ∨ op = 0xC7 ∨
      op = 0xB60F ∨ op = 0xB70F ∨ op = 0xBE0F ∨ op = 0xBF0F ∨
      (op ≠ 0x88 ∧ op ≠ 0x89 ∧ op ≠ 0x8A ∧ op ≠ 0x8B ∧ op ≠ 0xC6 ∧ op ≠ 0xC7 ∧
        op ≠ 0xB60F ∧ op ≠ 0xB70F ∧ op ≠ 0xBE0F ∧ op ≠ 0xBF0F) := by
  omega

/-- C2: for every byte sequence `get_ins_mem_width` returns a value among 1, 2,
4, 8 exactly when `get_ins_type` returns a classification other than `OTHERS`,
it returns 0 exactly when `get_ins_type` returns `OTHERS`, and in the 32-bit
build it never returns 8. -/
theorem get_ins_mem_width_recognized (b : Build) (bs : List Byte) :
    ((∃ w, get_ins_mem_width b bs = some w ∧ (w = 1 ∨ w = 2 ∨ w = 4 ∨ w = 8)) ↔
      (∃ t, get_ins_type b bs = some t ∧ t ≠ reason_type.OTHERS)) ∧
    (get_ins_mem_width b bs = some 0 ↔ get_ins_type b bs = some reason_type.OTHERS) ∧
    get_ins_mem_width Build.i386 bs ≠ some 8 := by
  have i386_no8 : get_ins_mem_width Build.i386 bs ≠ some 8 := by
    rcases h : get_opcode bs (prefix_run Build.i386 bs).length with _ | ⟨len, op⟩
    · simp [get_ins_mem_width, decode_head_none _ _ h]
    · rw [get_ins_mem_width_of_opcode _ bs len op h]
      simp only [enlarged_i386]
      split_ifs <;> simp_all
  refine ⟨?_, ?_, i386_no8⟩
  · rcases h : get_opcode bs (prefix_run b bs).length with _ | ⟨len, op⟩
    · simp [get_ins_mem_width, get_ins_type, decode_head_none _ _ h]
    · rw [get_ins_mem_width_of_opcode b bs len op h, get_ins_type_of_opcode b bs len op h]
      rcases opcode_cases op with h | h | h | h | h | h | h | h | h | h | h
      on_goal 11 => obtain ⟨a1, a2, a3, a4, a5, a6, a7, a8, a9, a10⟩ := h
      on_goal 11 => simp [a1, a2, a3, a4, a5, a6, a7, a8, a9, a10]
      all_goals subst h
      all_goals clear h i386_no8
      all_goals cases b <;> simp <;> split_ifs <;> omega
  · rcases h : get_opcode bs (prefix_run b bs).length with _ | ⟨len, op⟩
    · simp [get_ins_mem_width, get_ins_type, decode_head_none _ _ h]
    · rw [get_ins_mem_width_of_opcode b bs len op h, get_ins_type_of_opcode b bs len op h]
      rcases opcode_cases op with h | h | h | h | h | h | h | h | h | h | h
      on_goal 11 => obtain ⟨a1, a2, a3, a4, a5, a6, a7, a8, a9, a10⟩ := h
      on_goal 11 => simp [a1, a2, a3, a4, a5, a6, a7, a8, a9, a10]
      all_goals subst h
      all_goals clear h i386_no8
      all_goals cases b <;> simp <;> split_ifs <;> first | omega | tauto

/-- C3 (as the code has it): for an instruction whose opcode is 89, 8B or C7,
in both builds, `get_ins_mem_width` returns 2 when the byte 66 is in the prefix
run; otherwise it returns 8 when the build is the 64-bit one, the opcode is 89
or 8B and a REX prefix with the W bit (48..4F) is in the prefix run; otherwise
(32-bit build, or opcode C7, or no such REX prefix) it returns 4. -/
theorem get_ins_mem_width_variable (b : Build) (bs : List Byte) (x : Byte)
    (hx : bs[(prefix_run b bs).length]? = some x)
    (hop : x = 0x89 ∨ x = 0x8B ∨ x = 0xC7) :
    ((0x66 : Byte) ∈ prefix_run b bs → get_ins_mem_width b bs = some 2) ∧
    ((0x66 : Byte) ∉ prefix_run b bs → b = Build.amd64 → x ≠ 0xC7 →
      (∃ r ∈ prefix_run b bs, 0x48 ≤ r.val ∧ r.val ≤ 0x4F) →
      get_ins_mem_width b bs = some 8) ∧
    ((0x66 : Byte) ∉ prefix_run b bs →
      (b = Build.i386 ∨ x = 0xC7 ∨ ¬ ∃ r ∈ prefix_run b bs, 0x48 ≤ r.val ∧ r.val ≤ 0x4F) →
      get_ins_mem_width b bs = some 4) := by
  have hne : x.val ≠ 0x0F := by
    rcases hop with rfl | rfl | rfl <;> simp [Fin.coe_ofNat_eq_mod]
  rw [get_ins_mem_width_of_opcode b bs 1 x.val (get_opcode_one bs _ x hx hne)]
  have hs := shorted_ne_zero_iff b (prefix_run b bs)
  have he := enlarged_ne_zero_iff b (prefix_run b bs)
  refine ⟨fun h66 => ?_, fun h66 hb hc7 hw => ?_, fun h66 hno => ?_⟩
  · have s1 := hs.2 h66
    rcases hop with rfl | rfl | rfl <;> cases b <;>
      simp [Fin.coe_ofNat_eq_mod, s1]
  · have s1 : ¬ (run_info b (prefix_run b bs)).shorted ≠ 0 := fun h => h66 (hs.1 h)
    have e1 := he.2 ⟨hb, hw⟩
    subst hb
    rcases hop with rfl | rfl | rfl
    · simp [Fin.coe_ofNat_eq_mod, s1, e1]
    · simp [Fin.coe_ofNat_eq_mod, s1, e1]
    · exact absurd rfl hc7
  · have s1 : ¬ (run_info b (prefix_run b bs)).shorted ≠ 0 := fun h => h66 (hs.1 h)
    rcases hop with rfl | rfl | rfl
    · cases b
      · simp [Fin.coe_ofNat_eq_mod, s1]
      · have e1 : ¬ (run_info Build.amd64 (prefix_run Build.amd64 bs)).enlarged ≠ 0 := by
          intro h
          rcases hno with h1 | h1 | h1
          · cases h1
          · revert h1; decide
          · exact h1 (he.1 h).2
        simp [Fin.coe_ofNat_eq_mod, s1, e1]
    · cases b
      · simp [Fin.coe_ofNat_eq_mod, s1]
      · have e1 : ¬ (run_info Build.amd64 (prefix_run Build.amd64 bs)).enlarged ≠ 0 := by
          intro h
          rcases hno with h1 | h1 | h1
          · cases h1
          · revert h1; decide
          · exact h1 (he.1 h).2
        simp [Fin.coe_ofNat_eq_mod, s1, e1]
    · cases b <;> simp [Fin.coe_ofNat_eq_mod, s1]

/-- Witness for C3: in the 64-bit build `48 89 00` has memory width 8. -/
theorem get_ins_mem_width_variable_witness :
    get_ins_mem_width Build.amd64 [0x48, 0x89, 0x00] = some 8 :=
  (get_ins_mem_width_variable Build.amd64 [0x48, 0x89, 0x00] 0x89 (by decide)
    (by decide)).2.1 (by decide) rfl (by decide) (by decide)

/-- C3 as stated fails: in the 64-bit build, for the opcode C7 behind the REX.W
prefix 48 and no 66 prefix, `get_ins_mem_width` returns 4 and not 8. -/
theorem get_ins_mem_width_c7_rex_w :
    prefix_run Build.amd64 [0x48, 0xC7, 0x00] = [0x48] ∧
    (0x66 : Byte) ∉ prefix_run Build.amd64 [0x48, 0xC7, 0x00] ∧
    ([0x48, 0xC7, 0x00] : List Byte)[(prefix_run Build.amd64 [0x48, 0xC7, 0x00]).length]?
      = some 0xC7 ∧
    get_ins_mem_width Build.amd64 [0x48, 0xC7, 0x00] = some 4 ∧
    get_ins_mem_width Build.amd64 [0x48, 0xC7, 0x00] ≠ some 8 := by
  decide

/-- C4: for every byte sequence, whatever its prefix run, `get_ins_mem_width`
returns 1 when the opcode after the run is 88, 8A, C6, 0F B6 or 0F BE, and 2
when it is 0F B7 or 0F BF. -/
theorem get_ins_mem_width_fixed (b : Build) (bs : List Byte) (x : Byte)
    (hx : bs[(prefix_run b bs).length]? = some x) :
    (x = 0x88 ∨ x = 0x8A ∨ x = 0xC6 → get_ins_mem_width b bs = some 1) ∧
    (x = 0x0F →
      bs[(prefix_run b bs).length + 1]? = some 0xB6 ∨
        bs[(prefix_run b bs).length + 1]? = some 0xBE →
      get_ins_mem_width b bs = some 1) ∧
    (x = 0x0F →
      bs[(prefix_run b bs).length + 1]? = some 0xB7 ∨
        bs[(prefix_run b bs).length + 1]? = some 0xBF →
      get_ins_mem_width b bs = some 2) := by
  refine ⟨fun h => ?_, fun h0 h => ?_, fun h0 h => ?_⟩
  · have hne : x.val ≠ 0x0F := by
      rcases h with rfl | rfl | rfl <;> simp [Fin.coe_ofNat_eq_mod]
    rw [get_ins_mem_width_of_opcode b bs 1 x.val (get_opcode_one bs _ x hx hne)]
    rcases h with rfl | rfl | rfl <;> simp [Fin.coe_ofNat_eq_mod]
  · subst h0
    rcases h with h | h
    · rw [get_ins_mem_width_of_opcode b bs 2 _ (get_opcode_two bs _ _ _ hx rfl h)]
      simp [Fin.coe_ofNat_eq_mod]
    · rw [get_ins_mem_width_of_opcode b bs 2 _ (get_opcode_two bs _ _ _ hx rfl h)]
      simp [Fin.coe_ofNat_eq_mod]
  · subst h0
    rcases h with h | h
    · rw [get_ins_mem_width_of_opcode b bs 2 _ (get_opcode_two bs _ _ _ hx rfl h)]
      simp [Fin.coe_ofNat_eq_mod]
    · rw [get_ins_mem_width_of_opcode b bs 2 _ (get_opcode_two bs _ _ _ hx rfl h)]
      simp [Fin.coe_ofNat_eq_mod]

/-- Witness for C4: in the 64-bit build, behind the prefixes 66 and 48 (REX.W),
the opcode 0F B7 has memory width 2. -/
theorem get_ins_mem_width_fixed_witness :
    get_ins_mem_width Build.amd64 [0x66, 0x48, 0x0F, 0xB7, 0x00] = some 2 :=
  (get_ins_mem_width_fixed Build.amd64 [0x66, 0x48, 0x0F, 0xB7, 0x00] 0x0F
    (by decide)).2.2 rfl (by decide)

/-! ## Register values -/

/-- C5: for every register-read or register-write instruction whose
register-operand width `w` is 2, 4 or 8 and every snapshot, with `m` the ModRM
byte (the byte after the opcode), the decoded index
`(bits 3-5 of m) + 8 * rexr` is below 16 and `get_ins_reg_val` returns the
register of that index (0=ax, 1=cx, 2=dx, 3=bx, 4=sp, 5=bp, 6=si, 7=di,
8..15=r8..r15) modulo `2 ^ (8 * w)`.  The bytes `66 8B C1` classify as
`REG_READ`, have memory width 2, are decoded with `rexr = 0` and ModRM `C1` at
offset 2 (register index 0), and yield `ax mod 2 ^ 16`. -/
theorem get_ins_reg_val_wide :
    (∀ (b : Build) (bs : List Byte) (regs : pt_regs) (pf : Prefixes) (op p : Nat)
        (t : reason_type) (w : Nat) (m : Byte),
      decode_head b bs = some (pf, op, p) →
      get_ins_type b bs = some t →
      (t = reason_type.REG_READ ∨ t = reason_type.REG_WRITE) →
      get_ins_reg_width b bs = some w →
      (w = 2 ∨ w = 4 ∨ w = 8) →
      bs[p]? = some m →
      m.val / 8 % 8 + 8 * pf.rexr < 16 ∧
      get_ins_reg_val b bs regs =
        some ([regs.ax, regs.cx, regs.dx, regs.bx, regs.sp, regs.bp, regs.si, regs.di,
          regs.r8, regs.r9, regs.r10, regs.r11, regs.r12, regs.r13, regs.r14,
          regs.r15].getD (m.val / 8 % 8 + 8 * pf.rexr) 0 % 2 ^ (8 * w))) ∧
    (∀ (b : Build) (regs : pt_regs),
      get_ins_type b [0x66, 0x8B, 0xC1] = some reason_type.REG_READ ∧
      get_ins_mem_width b [0x66, 0x8B, 0xC1] = some 2 ∧
      decode_head b [0x66, 0x8B, 0xC1] =
        some ({ len := 1, shorted := 1, enlarged := 0, rexr := 0 }, 0x8B, 2) ∧
      (0xC1 : Byte).val / 8 % 8 + 8 * 0 = 0 ∧
      get_ins_reg_val b [0x66, 0x8B, 0xC1] regs = some (regs.ax % 2 ^ 16)) := by
  have general : ∀ (b : Build) (bs : List Byte) (regs : pt_regs) (pf : Prefixes) (op p : Nat)
        (t : reason_type) (w : Nat) (m : Byte),
      decode_head b bs = some (pf, op, p) →
      get_ins_type b bs = some t →
      (t = reason_type.REG_READ ∨ t = reason_type.REG_WRITE) →
      get_ins_reg_width b bs = some w →
      (w = 2 ∨ w = 4 ∨ w = 8) →
      bs[p]? = some m →
      m.val / 8 % 8 + 8 * pf.rexr < 16 ∧
      get_ins_reg_val b bs regs =
        some ([regs.ax, regs.cx, regs.dx, regs.bx, regs.sp, regs.bp, regs.si, regs.di,
          regs.r8, regs.r9, regs.r10, regs.r11, regs.r12, regs.r13, regs.r14,
          regs.r15].getD (m.val / 8 % 8 + 8 * pf.rexr) 0 % 2 ^ (8 * w)) := by
    intro b bs regs pf op p t w m hd ht htr hw hw2 hm
    obtain ⟨len, hop, rfl, rfl⟩ := decode_head_some hd
    have hr := rexr_cases b (prefix_run b bs)
    have hf : m.val / 8 % 8 < 8 := Nat.mod_lt _ (by norm_num)
    have htab :
        (in_table op (reg_rop b) || in_table op (reg_wop b)) = true := by
      rw [get_ins_type, hd] at ht
      simp only at ht
      split_ifs at ht with h1 h2 h3
      · simp [h1]
      · simp [h2]
      · simp only [Option.some.injEq] at ht
        subst ht
        rcases htr with h | h <;> cases h
      · simp only [Option.some.injEq] at ht
        subst ht
        rcases htr with h | h <;> cases h
    have hidx := reg_index_eq m (run_info b (prefix_run b bs)).rexr
      (by rcases hr with h | h; exact Or.inl h; exact Or.inr h.1)
    refine ⟨by omega, ?_⟩
    have hw8 : w = 8 → b = Build.amd64 := by
      intro h8
      subst h8
      cases b
      · rw [get_ins_reg_width_of_opcode _ bs len op hop] at hw
        simp only [enlarged_i386] at hw
        split_ifs at hw <;> simp_all
      · rfl
    have key := deref_w32 b regs w (m.val / 8 % 8) (run_info b (prefix_run b bs)).rexr hf hr
    have hpow : 256 ^ w = 2 ^ (8 * w) := by
      rw [pow_mul]
      norm_num
    rw [hpow] at key
    rw [get_ins_reg_val, hd]
    simp only [htab, if_true, hm, hw, hidx]
    rcases hw2 with rfl | rfl | rfl
    · simpa using key
    · simpa using key
    · simpa [hw8 rfl] using key
  refine ⟨general, ?_⟩
  intro b regs
  have h1 : get_ins_type b [0x66, 0x8B, 0xC1] = some reason_type.REG_READ := by
    cases b <;> decide
  have h2 : get_ins_mem_width b [0x66, 0x8B, 0xC1] = some 2 := by
    cases b <;> decide
  have h3 : decode_head b [0x66, 0x8B, 0xC1] =
      some ({ len := 1, shorted := 1, enlarged := 0, rexr := 0 }, 0x8B, 2) := by
    cases b <;> decide
  have h4 : get_ins_reg_width b [0x66, 0x8B, 0xC1] = some 2 := by
    cases b <;> decide
  refine ⟨h1, h2, h3, by decide, ?_⟩
  have h5 := (general b [0x66, 0x8B, 0xC1] regs _ _ _ _ 2 0xC1 h3 h1 (Or.inl rfl) h4
    (Or.inl rfl) (by decide)).2
  simpa [Fin.coe_ofNat_eq_mod] using h5

/-- Witness for C5: in the 64-bit build `4C 89 08` (REX.W and REX.R, opcode 89,
register field 1) yields the full 64 bits of `r9`. -/
theorem get_ins_reg_val_wide_witness :
    get_ins_reg_val Build.amd64 [0x4C, 0x89, 0x08] snapshot_example =
      some 0x0909090909090909 := by
  have h := (get_ins_reg_val_wide.1 Build.amd64 [0x4C, 0x89, 0x08] snapshot_example
    { len := 1, shorted := 0, enlarged := 1, rexr := 1 } 0x89 2 reason_type.REG_WRITE 8 0x08
    (by decide) (by decide) (Or.inr rfl) (by decide) (by decide) (by decide)).2
  simpa [snapshot_example, Fin.coe_ofNat_eq_mod] using h

/-- C6: for every instruction with opcode 88 or 8A and every snapshot, with `m`
the ModRM byte and `i = (bits 3-5 of m) + 8 * rexr` the decoded index: when `i`
is in 0..3 `get_ins_reg_val` returns the low byte of register `i` of ax, cx,
dx, bx, and when `i` is in 4..7 it returns bits 8-15 of register `i - 4` of ax,
cx, dx, bx.  With `ax = 0x1234`, the bytes `88 20` (index 4) yield `0x12`. -/
theorem get_ins_reg_val_byte :
    (∀ (b : Build) (bs : List Byte) (regs : pt_regs) (x m : Byte),
      bs[(prefix_run b bs).length]? = some x →
      (x = 0x88 ∨ x = 0x8A) →
      bs[(prefix_run b bs).length + 1]? = some m →
      (m.val / 8 % 8 + 8 * (run_info b (prefix_run b bs)).rexr < 4 →
        get_ins_reg_val b bs regs =
          some ([regs.ax, regs.cx, regs.dx, regs.bx].getD
            (m.val / 8 % 8 + 8 * (run_info b (prefix_run b bs)).rexr) 0 % 256)) ∧
      (4 ≤ m.val / 8 % 8 + 8 * (run_info b (prefix_run b bs)).rexr →
        m.val / 8 % 8 + 8 * (run_info b (prefix_run b bs)).rexr < 8 →
        get_ins_reg_val b bs regs =
          some ([regs.ax, regs.cx, regs.dx, regs.bx].getD
            (m.val / 8 % 8 + 8 * (run_info b (prefix_run b bs)).rexr - 4) 0 / 256 % 256))) ∧
    (∀ (b : Build) (regs : pt_regs), regs.ax = 0x1234 →
      get_ins_reg_val b [0x88, 0x20] regs = some 0x12) := by
  have general : ∀ (b : Build) (bs : List Byte) (regs : pt_regs) (x m : Byte),
      bs[(prefix_run b bs).length]? = some x →
      (x = 0x88 ∨ x = 0x8A) →
      bs[(prefix_run b bs).length + 1]? = some m →
      (m.val / 8 % 8 + 8 * (run_info b (prefix_run b bs)).rexr < 4 →
        get_ins_reg_val b bs regs =
          some ([regs.ax, regs.cx, regs.dx, regs.bx].getD
            (m.val / 8 % 8 + 8 * (run_info b (prefix_run b bs)).rexr) 0 % 256)) ∧
      (4 ≤ m.val / 8 % 8 + 8 * (run_info b (prefix_run b bs)).rexr →
        m.val / 8 % 8 + 8 * (run_info b (prefix_run b bs)).rexr < 8 →
        get_ins_reg_val b bs regs =
          some ([regs.ax, regs.cx, regs.dx, regs.bx].getD
            (m.val / 8 % 8 + 8 * (run_info b (prefix_run b bs)).rexr - 4) 0 / 256 % 256)) := by
    intro b bs regs x m hx hop hm
    have hne : x.val ≠ 0x0F := by
      rcases hop with rfl | rfl <;> simp [Fin.coe_ofNat_eq_mod]
    have hop1 := get_opcode_one bs _ x hx hne
    have hd : decode_head b bs = some (run_info b (prefix_run b bs), x.val,
        (prefix_run b bs).length + 1) := by
      rw [decode_head_eq, hop1]
    have hw : get_ins_reg_width b bs = some 1 := by
      rw [get_ins_reg_width_of_opcode b bs 1 x.val hop1]
      rcases hop with rfl | rfl <;> simp [Fin.coe_ofNat_eq_mod]
    have htab : (in_table x.val (reg_rop b) || in_table x.val (reg_wop b)) = true := by
      rw [Bool.or_eq_true, in_table_iff, in_table_iff]
      rcases hop with rfl | rfl <;> cases b <;> simp [reg_rop, reg_wop, Fin.coe_ofNat_eq_mod]
    have hr := rexr_cases b (prefix_run b bs)
    have hf : m.val / 8 % 8 < 8 := Nat.mod_lt _ (by norm_num)
    have hidx := reg_index_eq m (run_info b (prefix_run b bs)).rexr
      (by rcases hr with h | h; exact Or.inl h; exact Or.inr h.1)
    have hval : ∀ (h8 : m.val / 8 % 8 + 8 * (run_info b (prefix_run b bs)).rexr < 8),
        get_ins_reg_val b bs regs =
          some (if m.val / 8 % 8 + 8 * (run_info b (prefix_run b bs)).rexr < 4 then
            [regs.ax, regs.cx, regs.dx, regs.bx].getD
              (m.val / 8 % 8 + 8 * (run_info b (prefix_run b bs)).rexr) 0 % 256
          else [regs.ax, regs.cx, regs.dx, regs.bx].getD
            (m.val / 8 % 8 + 8 * (run_info b (prefix_run b bs)).rexr - 4) 0 / 256 % 256) := by
      intro h8
      rw [get_ins_reg_val, hd]
      simp only [htab, if_true, hm, hw, hidx]
      exact deref_w8 b regs _ h8
    constructor
    · intro h4
      rw [hval (by omega), if_pos h4]
    · intro h4 h8
      rw [hval h8, if_neg (by omega)]
  refine ⟨general, ?_⟩
  intro b regs hax
  cases b
  · have h := (general Build.i386 [0x88, 0x20] regs 0x88 0x20 (by decide) (Or.inl rfl)
      (by decide)).2 (by decide) (by decide)
    have hi : (0x20 : Byte).val / 8 % 8 +
        8 * (run_info Build.i386 (prefix_run Build.i386 [0x88, 0x20])).rexr - 4 = 0 := by
      decide
    rw [hi] at h
    have e : [regs.ax, regs.cx, regs.dx, regs.bx].getD 0 0 = regs.ax := rfl
    rw [h, e, hax]
  · have h := (general Build.amd64 [0x88, 0x20] regs 0x88 0x20 (by decide) (Or.inl rfl)
      (by decide)).2 (by decide) (by decide)
    have hi : (0x20 : Byte).val / 8 % 8 +
        8 * (run_info Build.amd64 (prefix_run Build.amd64 [0x88, 0x20])).rexr - 4 = 0 := by
      decide
    rw [hi] at h
    have e : [regs.ax, regs.cx, regs.dx, regs.bx].getD 0 0 = regs.ax := rfl
    rw [h, e, hax]

/-- Witness for C6: in the 32-bit build `8A 38` (register field 7, `BH`) yields
bits 8-15 of `bx`. -/
theorem get_ins_reg_val_byte_witness :
    get_ins_reg_val Build.i386 [0x8A, 0x38] snapshot_example = some 0x03 := by
  have h := (get_ins_reg_val_byte.1 Build.i386 [0x8A, 0x38] snapshot_example 0x8A 0x38
    (by decide) (Or.inr rfl) (by decide)).2 (by decide) (by decide)
  have hrex : (run_info Build.i386 (prefix_run Build.i386 [0x8A, 0x38])).rexr = 0 := by
    decide
  rw [hrex] at h
  simpa [snapshot_example, Fin.coe_ofNat_eq_mod] using h

/-! ## Immediate values -/

/-- C7: for every instruction with opcode C6 or C7 whose ModRM byte `m` has
mod != 3, with `w` the value of `get_ins_reg_width` and `d` the displacement
size (4 if mod = 0 and r/m = 5, 0 if mod = 0 and r/m != 5, 1 if mod = 1, 4 if
mod = 2): `w` is 1, 2, 4 or (64-bit build only) 8, and when the `w` bytes that
start `d` bytes after the ModRM byte are readable, `get_ins_imm_val` returns
their little-endian unsigned value.  The bytes `C6 05 11 22 33 44 7F` classify
as `IMM_WRITE`, have width 1 and yield the immediate `0x7F`. -/
theorem get_ins_imm_val_memory :
    (∀ (b : Build) (bs : List Byte) (x m : Byte) (w d : Nat),
      bs[(prefix_run b bs).length]? = some x →
      (x = 0xC6 ∨ x = 0xC7) →
      bs[(prefix_run b bs).length + 1]? = some m →
      ((m.val / 64 = 0 ∧ m.val % 8 = 5 ∧ d = 4) ∨ (m.val / 64 = 0 ∧ m.val % 8 ≠ 5 ∧ d = 0) ∨
        (m.val / 64 = 1 ∧ d = 1) ∨ (m.val / 64 = 2 ∧ d = 4)) →
      get_ins_reg_width b bs = some w →
      (w = 1 ∨ w = 2 ∨ w = 4 ∨ (w = 8 ∧ b = Build.amd64)) ∧
      ((prefix_run b bs).length + 2 + d + w ≤ bs.length →
        get_ins_imm_val b bs =
          some (Nat.ofDigits 256
            (((bs.drop ((prefix_run b bs).length + 2 + d)).take w).map Fin.val)))) ∧
    (∀ b : Build,
      get_ins_type b [0xC6, 0x05, 0x11, 0x22, 0x33, 0x44, 0x7F] = some reason_type.IMM_WRITE ∧
      get_ins_mem_width b [0xC6, 0x05, 0x11, 0x22, 0x33, 0x44, 0x7F] = some 1 ∧
      get_ins_reg_width b [0xC6, 0x05, 0x11, 0x22, 0x33, 0x44, 0x7F] = some 1 ∧
      get_ins_imm_val b [0xC6, 0x05, 0x11, 0x22, 0x33, 0x44, 0x7F] = some 0x7F) := by
  constructor
  · intro b bs x m w d hx hop hm hd4 hw
    have hne : x.val ≠ 0x0F := by
      rcases hop with rfl | rfl <;> simp [Fin.coe_ofNat_eq_mod]
    have hop1 := get_opcode_one bs _ x hx hne
    have hd : decode_head b bs = some (run_info b (prefix_run b bs), x.val,
        (prefix_run b bs).length + 1) := by
      rw [decode_head_eq, hop1]
    have htab : in_table x.val (imm_wop b) = true := by
      rw [in_table_iff]
      rcases hop with rfl | rfl <;> cases b <;> simp [imm_wop, Fin.coe_ofNat_eq_mod]
    have hwv : w = 1 ∨ w = 2 ∨ w = 4 ∨ (w = 8 ∧ b = Build.amd64) := by
      rw [get_ins_reg_width_of_opcode b bs 1 x.val hop1] at hw
      have he := enlarged_ne_zero_iff b (prefix_run b bs)
      rcases hop with rfl | rfl
      · simp [Fin.coe_ofNat_eq_mod] at hw
        omega
      · simp only [Fin.coe_ofNat_eq_mod] at hw
        norm_num at hw
        split_ifs at hw with h1 h2
        · omega
        · exact Or.inr (Or.inr (Or.inr ⟨hw.symm, (he.1 h2).1⟩))
        · omega
    refine ⟨hwv, fun hlen => ?_⟩
    obtain ⟨hm1, hm2, hm3⟩ := modrm_fields m
    have hp2 : (if m.val >>> 6 = 0 then
          (if m.val &&& 0x7 = 0x5 then (prefix_run b bs).length + 1 + 1 + 4
            else (prefix_run b bs).length + 1 + 1)
        else if m.val >>> 6 = 1 then (prefix_run b bs).length + 1 + 1 + 1
        else if m.val >>> 6 = 2 then (prefix_run b bs).length + 1 + 1 + 4
        else (prefix_run b bs).length + 1 + 1) = (prefix_run b bs).length + 2 + d := by
      rw [hm2, hm3]
      rcases hd4 with ⟨h1, h2, rfl⟩ | ⟨h1, h2, rfl⟩ | ⟨h1, rfl⟩ | ⟨h1, rfl⟩
      · rw [h1, h2, if_pos rfl, if_pos rfl]
      · rw [h1, if_pos rfl, if_neg h2]
      · rw [h1, if_neg (by decide), if_pos rfl]
      · rw [h1, if_neg (by decide), if_neg (by decide), if_pos rfl]
    rw [get_ins_imm_val, hd]
    simp only [htab, if_true, hm, hw, hp2]
    rcases hwv with rfl | rfl | rfl | ⟨rfl, rfl⟩ <;>
      simp [read_le_eq bs _ _ hlen]
  · intro b
    cases b <;> decide

/-- Witness for C7: in the 64-bit build `66 C7 40 10 34 12` (operand-size
override, opcode C7, mod = 1 with the displacement byte 10) yields the 2-byte
immediate `0x1234`. -/
theorem get_ins_imm_val_memory_witness :
    get_ins_imm_val Build.amd64 [0x66, 0xC7, 0x40, 0x10, 0x34, 0x12] = some 0x1234 := by
  have h := (get_ins_imm_val_memory.1 Build.amd64 [0x66, 0xC7, 0x40, 0x10, 0x34, 0x12]
    0xC7 0x40 2 1 (by decide) (Or.inr rfl) (by decide) (by decide) (by decide)).2 (by decide)
  rw [h]
  decide

/-- C8: the code at the failing input.  For `C6 C0 7F` and
`C7 C0 78 56 34 12` the ModRM byte `C0` has mod = 3 (register-direct), the
instruction is classified `IMM_WRITE`, and `get_ins_imm_val` does not take the
error exit (which returns 0): it returns the bytes that follow the ModRM byte,
`0x7F` and `0x12345678`. -/
theorem get_ins_imm_val_register_direct :
    (0xC0 : Byte).val >>> 6 = 3 ∧
    (∀ b : Build,
      get_ins_type b [0xC6, 0xC0, 0x7F] = some reason_type.IMM_WRITE ∧
      get_ins_imm_val b [0xC6, 0xC0, 0x7F] = some 0x7F ∧
      get_ins_type b [0xC7, 0xC0, 0x78, 0x56, 0x34, 0x12] = some reason_type.IMM_WRITE ∧
      get_ins_imm_val b [0xC7, 0xC0, 0x78, 0x56, 0x34, 0x12] = some 0x12345678) := by
  refine ⟨by decide, fun b => ?_⟩
  cases b <;> decide

/-! ## Unrecognized opcodes -/

theorem others_tables {b : Build} {bs : List Byte}
    (h : get_ins_type b bs = some reason_type.OTHERS) :
    ∃ pf op p, decode_head b bs = some (pf, op, p) ∧
      in_table op (reg_rop b) = false ∧ in_table op (reg_wop b) = false ∧
      in_table op (imm_wop b) = false := by
  rw [get_ins_type] at h
  rcases hd : decode_head b bs with _ | ⟨pf, op, p⟩
  · rw [hd] at h
    cases h
  · rw [hd] at h
    simp only at h
    split_ifs at h with h1 h2 h3
    · simp at h
    · simp at h
    · simp at h
    · exact ⟨pf, op, p, rfl, by simpa using h1, by simpa using h2, by simpa using h3⟩

theorem not_in_table {v : Nat} {t : List Nat} (h : in_table v t = false) : v ∉ t := by
  intro hm
  rw [← in_table_iff, h] at hm
  cases hm

/-- C9 (as the code has it): for every instruction whose opcode is in none of
the tables, that is, classified `OTHERS`, each of `get_ins_mem_width`,
`get_ins_reg_val` (for any snapshot) and `get_ins_imm_val` returns the value
0. -/
theorem unrecognized_returns_zero (b : Build) (bs : List Byte) (regs : pt_regs)
    (h : get_ins_type b bs = some reason_type.OTHERS) :
    get_ins_mem_width b bs = some 0 ∧ get_ins_reg_val b bs regs = some 0 ∧
      get_ins_imm_val b bs = some 0 := by
  obtain ⟨pf, op, p, hd, h1, h2, h3⟩ := others_tables h
  have n1 := not_in_table h1
  have n2 := not_in_table h2
  have n3 := not_in_table h3
  refine ⟨?_, ?_, ?_⟩
  · have m1 : in_table op (mw8 b) = false := by
      rw [Bool.eq_false_iff, Ne, in_table_iff]
      cases b <;> simp [mw8, reg_rop, reg_wop, imm_wop] at n1 n2 n3 ⊢ <;> omega
    have m2 : in_table op (mw16 b) = false := by
      rw [Bool.eq_false_iff, Ne, in_table_iff]
      cases b <;> simp [mw16, reg_rop, reg_wop, imm_wop] at n1 n2 n3 ⊢ <;> omega
    have m3 : in_table op (mw32 b) = false := by
      rw [Bool.eq_false_iff, Ne, in_table_iff]
      cases b <;> simp [mw32, reg_rop, reg_wop, imm_wop] at n1 n2 n3 ⊢ <;> omega
    have m4 : in_table op (mw64 b) = false := by
      rw [Bool.eq_false_iff, Ne, in_table_iff]
      cases b <;> simp [mw64, reg_rop, reg_wop, imm_wop] at n1 n2 n3 ⊢ <;> omega
    rw [get_ins_mem_width, hd]
    simp [m1, m2, m3, m4]
  · rw [get_ins_reg_val, hd]
    simp [h1, h2]
  · rw [get_ins_imm_val, hd]
    simp [h3]

/-- Witness for C9: the single byte 90 before a zero byte, in the 64-bit
build. -/
theorem unrecognized_returns_zero_witness :
    get_ins_mem_width Build.amd64 [0x90, 0x00] = some 0 ∧
      get_ins_reg_val Build.amd64 [0x90, 0x00] snapshot_example = some 0 ∧
      get_ins_imm_val Build.amd64 [0x90, 0x00] = some 0 :=
  unrecognized_returns_zero Build.amd64 [0x90, 0x00] snapshot_example (by decide)

/-- C9 as stated fails: for the single byte 90, in the 32-bit build, the
classification is `OTHERS` and each of the three queries returns the value
0. -/
theorem unrecognized_opcode_zero :
    get_ins_type Build.i386 [0x90] = some reason_type.OTHERS ∧
    ¬ (get_ins_mem_width Build.i386 [0x90] ≠ some 0 ∧
      get_ins_reg_val Build.i386 [0x90] snapshot_example ≠ some 0 ∧
      get_ins_imm_val Build.i386 [0x90] ≠ some 0) ∧
    get_ins_mem_width Build.i386 [0x90] = some 0 ∧
    get_ins_reg_val Build.i386 [0x90] snapshot_example = some 0 ∧
    get_ins_imm_val Build.i386 [0x90] = some 0 := by
  decide

/-! ## Prefix invariance -/

/-- C10: for every byte sequence `bs`, every snapshot and every prefix byte `x`
among 26, 2E, 36, 3E, 64, 65, 67, F0, F2, F3, in both builds, `get_ins_type`,
`get_ins_mem_width`, `get_ins_reg_val` and `get_ins_imm_val` return on
`x :: bs` what they return on `bs`, and `skip_prefix` returns one more byte
consumed with the same flags. -/
theorem quiet_prefix_invariance (b : Build) (bs : List Byte) (regs : pt_regs) (x : Byte)
    (hx : x ∈ [(0x26 : Byte), 0x2E, 0x36, 0x3E, 0x64, 0x65, 0x67, 0xF0, 0xF2, 0xF3]) :
    get_ins_type b (x :: bs) = get_ins_type b bs ∧
    get_ins_mem_width b (x :: bs) = get_ins_mem_width b bs ∧
    get_ins_reg_val b (x :: bs) regs = get_ins_reg_val b bs regs ∧
    get_ins_imm_val b (x :: bs) = get_ins_imm_val b bs ∧
    skip_prefix b (x :: bs) =
      ( skip_prefix b bs).map (fun pf => { pf with len := pf.len + 1 }) := by
  have hq : in_table x.val (prefix_codes b) = true ∧ x.val ≠ 0x66 ∧
      ¬ (b = Build.amd64 ∧ x.val &&& 0xf8 = 0x48) ∧
      ¬ (b = Build.amd64 ∧ x.val &&& 0xf4 = 0x44) := by
    simp only [List.mem_cons, List.mem_singleton, List.not_mem_nil, or_false] at hx
    rcases hx with rfl | rfl | rfl | rfl | rfl | rfl | rfl | rfl | rfl | rfl <;>
      cases b <;> decide
  obtain ⟨h1, h2, h3, h4⟩ := hq
  obtain ⟨t1, _, t3, t4, t5⟩ := queries_cons_quiet b x bs regs h1 h2 h3 h4
  exact ⟨t1, t3, t4, t5, (decode_head_cons_quiet b x bs h1 h2 h3 h4).1⟩

/-- Witness for C10: the segment override 2E before `66 8B C1`, in the 32-bit
build. -/
theorem quiet_prefix_invariance_witness :
    get_ins_type Build.i386 [0x2E, 0x66, 0x8B, 0xC1] =
      get_ins_type Build.i386 [0x66, 0x8B, 0xC1] ∧
    get_ins_mem_width Build.i386 [0x2E, 0x66, 0x8B, 0xC1] =
      get_ins_mem_width Build.i386 [0x66, 0x8B, 0xC1] ∧
    get_ins_reg_val Build.i386 [0x2E, 0x66, 0x8B, 0xC1] snapshot_example =
      get_ins_reg_val Build.i386 [0x66, 0x8B, 0xC1] snapshot_example ∧
    get_ins_imm_val Build.i386 [0x2E, 0x66, 0x8B, 0xC1] =
      get_ins_imm_val Build.i386 [0x66, 0x8B, 0xC1] ∧
    skip_prefix Build.i386 [0x2E, 0x66, 0x8B, 0xC1] =
      ( skip_prefix Build.i386 [0x66, 0x8B, 0xC1]).map
        (fun pf => { pf with len := pf.len + 1 }) :=
  quiet_prefix_invariance Build.i386 [0x66, 0x8B, 0xC1] snapshot_example 0x2E (by decide)

/-! ## The prefix scanner -/

theorem is_prefix_code_iff (b : Build) (x : Byte) :
    is_prefix_code b x = true ↔
      (x ∈ [(0xF0 : Byte), 0xF2, 0xF3, 0x2E, 0x36, 0x3E, 0x26, 0x64, 0x65, 0x66, 0x67] ∨
        (b = Build.amd64 ∧ 0x40 ≤ x.val ∧ x.val ≤ 0x4F)) := by
  rw [is_prefix_code, in_table_iff]
  have hx := x.isLt
  cases b
  · simp only [prefix_codes, List.mem_cons, List.mem_singleton, List.not_mem_nil, or_false,
      Fin.ext_iff, Fin.coe_ofNat_eq_mod, reduceCtorEq, false_and]
    norm_num
    omega
  · simp only [prefix_codes, List.mem_cons, List.mem_singleton, List.not_mem_nil, or_false,
      Fin.ext_iff, Fin.coe_ofNat_eq_mod, true_and]
    norm_num
    omega

theorem getElem?_takeWhile_length {α : Type} (p : α → Bool) (l : List α) (y : α)
    (h : l[(l.takeWhile p).length]? = some y) : p y = false := by
  induction l with
  | nil => simp at h
  | cons a t ih =>
    by_cases ha : p a = true
    · rw [List.takeWhile_cons_of_pos ha, List.length_cons, List.getElem?_cons_succ] at h
      exact ih h
    · rw [List.takeWhile_cons_of_neg ha, List.length_nil, List.getElem?_cons_zero] at h
      simp only [Option.some.injEq] at h
      subst h
      simpa using ha

theorem prefix_run_append (b : Build) (pre : List Byte) (y : Byte) (post : List Byte)
    (hpre : ∀ x ∈ pre, is_prefix_code b x = true) (hy : is_prefix_code b y = false) :
    prefix_run b (pre ++ y :: post) = pre := by
  rw [prefix_run, List.takeWhile_append_of_pos hpre,
    List.takeWhile_cons_of_neg (by simp [hy]), List.append_nil]

theorem skip_prefix_some {b : Build} {bs : List Byte} {pf : Prefixes}
    (h : skip_prefix b bs = some pf) :
    (prefix_run b bs).length < bs.length ∧ pf = run_info b (prefix_run b bs) := by
  rw [skip_prefix_eq] at h
  by_cases hlt : (prefix_run b bs).length < bs.length
  · rw [if_pos hlt] at h
    exact ⟨hlt, (Option.some.inj h).symm⟩
  · rw [if_neg hlt] at h
    cases h

/-- C11 (as the code has it): `prefix_codes` holds exactly the bytes F0, F2, F3,
2E, 36, 3E, 26, 64, 65, 66, 67 and, in the 64-bit build only, 40..4F.  For every
byte sequence that consists of prefix bytes `pre`, a byte `y` that is not a
prefix byte, and any bytes `post`, `skip_prefix` returns the length of `pre`
(so prefix bytes in `post` are not consumed, and 0 is returned when `pre` is
empty).  Whenever `skip_prefix` returns, it returns the length of the prefix
run, there is a byte at the returned offset and that byte is not a prefix byte.
In the 32-bit build a leading byte 40..4F is not consumed. -/
theorem skip_prefix_consumes_run :
    (∀ (b : Build) (x : Byte), is_prefix_code b x = true ↔
      (x ∈ [(0xF0 : Byte), 0xF2, 0xF3, 0x2E, 0x36, 0x3E, 0x26, 0x64, 0x65, 0x66, 0x67] ∨
        (b = Build.amd64 ∧ 0x40 ≤ x.val ∧ x.val ≤ 0x4F))) ∧
    (∀ (b : Build) (pre : List Byte) (y : Byte) (post : List Byte),
      (∀ x ∈ pre, is_prefix_code b x = true) → is_prefix_code b y = false →
      ∃ pf, skip_prefix b (pre ++ y :: post) = some pf ∧ pf.len = pre.length) ∧
    (∀ (b : Build) (bs : List Byte) (pf : Prefixes), skip_prefix b bs = some pf →
      pf.len = (prefix_run b bs).length ∧ pf.len < bs.length ∧
      ∃ y, bs[pf.len]? = some y ∧ is_prefix_code b y = false) ∧
    (∀ (x : Byte) (rest : List Byte), 0x40 ≤ x.val → x.val ≤ 0x4F →
      ∃ pf, skip_prefix Build.i386 (x :: rest) = some pf ∧ pf.len = 0) := by
  have part2 : ∀ (b : Build) (pre : List Byte) (y : Byte) (post : List Byte),
      (∀ x ∈ pre, is_prefix_code b x = true) → is_prefix_code b y = false →
      ∃ pf, skip_prefix b (pre ++ y :: post) = some pf ∧ pf.len = pre.length := by
    intro b pre y post hpre hy
    have hrun := prefix_run_append b pre y post hpre hy
    refine ⟨run_info b pre, ?_, rfl⟩
    rw [skip_prefix_eq, hrun, if_pos (by simp)]
  refine ⟨is_prefix_code_iff, part2, ?_, ?_⟩
  · intro b bs pf h
    obtain ⟨hlt, rfl⟩ := skip_prefix_some h
    refine ⟨rfl, hlt, ?_⟩
    have hlt2 : (run_info b (prefix_run b bs)).len < bs.length := hlt
    refine ⟨bs[(run_info b (prefix_run b bs)).len], List.getElem?_eq_getElem hlt2, ?_⟩
    exact getElem?_takeWhile_length (is_prefix_code b) bs _ (List.getElem?_eq_getElem hlt2)
  · intro x rest h1 h2
    have hx : is_prefix_code Build.i386 x = false := by
      rw [Bool.eq_false_iff, Ne, is_prefix_code_iff]
      simp only [List.mem_cons, List.mem_singleton, List.not_mem_nil, or_false, Fin.ext_iff,
        Fin.coe_ofNat_eq_mod, reduceCtorEq, false_and]
      norm_num
      omega
    exact part2 Build.i386 [] x rest (by simp) hx

/-- Witness for C11: in the 64-bit build the scan of `66 48 8B 66 00` consumes
the two leading prefix bytes and not the byte 66 behind the opcode. -/
theorem skip_prefix_consumes_run_witness :
    ∃ pf, skip_prefix Build.amd64 ([0x66, 0x48] ++ 0x8B :: [0x66, 0x00]) = some pf ∧
      pf.len = ([0x66, 0x48] : List Byte).length :=
  skip_prefix_consumes_run.2.1 Build.amd64 [0x66, 0x48] 0x8B [0x66, 0x00]
    (by
      intro x hx
      simp only [List.mem_cons, List.mem_singleton, List.not_mem_nil, or_false] at hx
      rcases hx with rfl | rfl <;> decide)
    (by decide)

/-- C11 as stated fails: on the sequence that consists of the single prefix
byte 66 the scan does not return 1, it reads past the end of the sequence. -/
theorem skip_prefix_only_prefixes :
    prefix_run Build.i386 [0x66] = [0x66] ∧ skip_prefix Build.i386 [0x66] = none ∧
      ¬ (∃ pf, skip_prefix Build.i386 [0x66] = some pf ∧ pf.len = 1) := by
  decide

/-- C12: `skip_prefix` returns exactly when a byte that is not a prefix byte
follows the prefix run, and then its flags are: `shorted` is 1 when the byte 66
is in the run and 0 otherwise; in the 64-bit build `enlarged` is 1 when a byte
48..4F is in the run and 0 otherwise, and `rexr` is 1 when a byte 44..47 or
4C..4F is in the run and 0 otherwise; in the 32-bit build `enlarged` and
`rexr` are 0; with an empty run all three flags are 0. -/
theorem skip_prefix_flags (b : Build) (bs : List Byte) :
    ((∃ pf, skip_prefix b bs = some pf) ↔ (prefix_run b bs).length < bs.length) ∧
    ∀ pf, skip_prefix b bs = some pf →
      (((0x66 : Byte) ∈ prefix_run b bs → pf.shorted = 1) ∧
        ((0x66 : Byte) ∉ prefix_run b bs → pf.shorted = 0)) ∧
      (b = Build.amd64 →
        ((∃ x ∈ prefix_run b bs, 0x48 ≤ x.val ∧ x.val ≤ 0x4F) → pf.enlarged = 1) ∧
        ((¬ ∃ x ∈ prefix_run b bs, 0x48 ≤ x.val ∧ x.val ≤ 0x4F) → pf.enlarged = 0) ∧
        ((∃ x ∈ prefix_run b bs,
            (0x44 ≤ x.val ∧ x.val ≤ 0x47) ∨ (0x4C ≤ x.val ∧ x.val ≤ 0x4F)) → pf.rexr = 1) ∧
        ((¬ ∃ x ∈ prefix_run b bs,
            (0x44 ≤ x.val ∧ x.val ≤ 0x47) ∨ (0x4C ≤ x.val ∧ x.val ≤ 0x4F)) → pf.rexr = 0)) ∧
      (b = Build.i386 → pf.enlarged = 0 ∧ pf.rexr = 0) ∧
      (prefix_run b bs = [] → pf.shorted = 0 ∧ pf.enlarged = 0 ∧ pf.rexr = 0) := by
  constructor
  · rw [skip_prefix_eq]
    by_cases hlt : (prefix_run b bs).length < bs.length <;> simp [hlt]
  · intro pf h
    obtain ⟨_, rfl⟩ := skip_prefix_some h
    have hs := shorted_ne_zero_iff b (prefix_run b bs)
    have he := enlarged_ne_zero_iff b (prefix_run b bs)
    have hr := rexr_eq b (prefix_run b bs)
    have hs01 : (run_info b (prefix_run b bs)).shorted = 0 ∨
        (run_info b (prefix_run b bs)).shorted = 1 := by
      simp only [run_info]
      split_ifs
      · exact Or.inr rfl
      · exact Or.inl rfl
    have he01 : (run_info b (prefix_run b bs)).enlarged = 0 ∨
        (run_info b (prefix_run b bs)).enlarged = 1 := by
      simp only [run_info]
      split_ifs
      · exact Or.inr rfl
      · exact Or.inl rfl
    refine ⟨⟨fun h66 => ?_, fun h66 => ?_⟩, fun hb => ⟨fun hw => ?_, fun hw => ?_, fun hx => ?_,
      fun hx => ?_⟩, fun hb => ?_, fun hnil => ?_⟩
    · have := hs.2 h66
      omega
    · by_contra hne
      exact h66 (hs.1 hne)
    · have := he.2 ⟨hb, hw⟩
      omega
    · by_contra hne
      exact hw (he.1 hne).2
    · rw [hr, if_pos ⟨hb, hx⟩]
    · rw [hr, if_neg (fun hc => hx hc.2)]
    · subst hb
      exact ⟨enlarged_i386 _, rexr_i386 _⟩
    · rw [hnil]
      simp [run_info]

/-- Witness for C12: in the 64-bit build the scan of `66 4C 8B` returns with
all three flags set. -/
theorem skip_prefix_flags_witness :
    skip_prefix Build.amd64 [0x66, 0x4C, 0x8B] =
      some { len := 2, shorted := 1, enlarged := 1, rexr := 1 } ∧
    (0x66 : Byte) ∈ prefix_run Build.amd64 [0x66, 0x4C, 0x8B] ∧
    ({ len := 2, shorted := 1, enlarged := 1, rexr := 1 } : Prefixes).shorted = 1 :=
  ⟨by decide, by decide,
    ((skip_prefix_flags Build.amd64 [0x66, 0x4C, 0x8B]).2
      { len := 2, shorted := 1, enlarged := 1, rexr := 1 } (by decide)).1.1 (by decide)⟩

/-! ## The opcode reader -/

/-- C13: with `x` the byte at the cursor, `get_opcode` consumes 1 byte and
returns the opcode `x` when `x` is not 0F; when `x` is 0F it consumes 2 bytes
and returns `0x0F + 256 * y`, `y` being the following byte (so `0F B6` gives
`0xB60F`).  Every byte value of `x` and `y` is accepted, and whenever
`get_opcode` returns, the length is 2 exactly when `x` is 0F and is 1
otherwise. -/
theorem get_opcode_length (bs : List Byte) (p : Nat) (x : Byte) (hx : bs[p]? = some x) :
    (x ≠ 0x0F → get_opcode bs p = some (1, x.val)) ∧
    (x = 0x0F → ∀ y, bs[p + 1]? = some y → get_opcode bs p = some (2, 0x0F + 256 * y.val)) ∧
    (∀ len op, get_opcode bs p = some (len, op) →
      (len = 2 ↔ x = 0x0F) ∧ (len = 1 ↔ x ≠ 0x0F)) ∧
    get_opcode [0x0F, 0xB6] 0 = some (2, 0xB60F) := by
  have hv : x.val = 0x0F ↔ x = 0x0F := by
    rw [Fin.ext_iff]
    rfl
  refine ⟨fun hne => ?_, fun h0 y hy => ?_, fun len op h => ?_, by decide⟩
  · exact get_opcode_one bs p x hx (fun h => hne (hv.1 h))
  · exact get_opcode_two bs p x y hx (hv.2 h0) hy
  · by_cases h0 : x = 0x0F
    · rcases hy : bs[p + 1]? with _ | y
      · rw [get_opcode_two_none bs p x hx (hv.2 h0) hy] at h
        cases h
      · rw [get_opcode_two bs p x y hx (hv.2 h0) hy] at h
        simp only [Option.some.injEq, Prod.mk.injEq] at h
        obtain ⟨h1, _⟩ := h
        subst h1
        simp [h0]
    · rw [get_opcode_one bs p x hx (fun h => h0 (hv.1 h))] at h
      simp only [Option.some.injEq, Prod.mk.injEq] at h
      obtain ⟨h1, _⟩ := h
      subst h1
      simp [h0]

/-- Witness for C13: the escaped opcode `0F BE` behind one other byte. -/
theorem get_opcode_length_witness :
    get_opcode [0x66, 0x0F, 0xBE] 1 = some (2, 0xBE0F) :=
  (get_opcode_length [0x66, 0x0F, 0xBE] 1 0x0F (by decide)).2.1 rfl 0xBE (by decide)

/-- C14 (as the code has it): for every two-byte opcode (0F and a following
byte `y`) the value `get_opcode` produces is below `2 ^ 16`, has 0F as its low
byte and `y` as its high byte, and every table entry above 255 has 0F as its
low byte. -/
theorem get_opcode_escape_low_byte :
    (∀ (bs : List Byte) (p : Nat) (y : Byte), bs[p]? = some 0x0F → bs[p + 1]? = some y →
      ∃ v, get_opcode bs p = some (2, v) ∧ v < 2 ^ 16 ∧ v % 256 = 0x0F ∧ v / 256 = y.val) ∧
    (∀ (b : Build) (op : Nat),
      op ∈ reg_rop b ++ reg_wop b ++ imm_wop b ++ rw8 b ++ rw32 b ++ mw8 b ++ mw16 b ++
        mw32 b ++ mw64 b →
      256 ≤ op → op % 256 = 0x0F ∧ op < 2 ^ 16) := by
  constructor
  · intro bs p y h0 h1
    refine ⟨0x0F + 256 * y.val, get_opcode_two bs p _ y h0 rfl h1, ?_, ?_, ?_⟩
    · have := y.isLt
      omega
    · omega
    · omega
  · intro b op hop h256
    cases b <;>
      simp only [reg_rop, reg_wop, imm_wop, rw8, rw32, mw8, mw16, mw32, mw64, List.mem_append,
        List.mem_cons, List.mem_singleton, List.not_mem_nil, or_false] at hop <;>
      omega

/-- Witness for C14: the opcode `0F B7`. -/
theorem get_opcode_escape_low_byte_witness :
    ∃ v, get_opcode [0x0F, 0xB7] 0 = some (2, v) ∧ v < 2 ^ 16 ∧ v % 256 = 0x0F ∧
      v / 256 = (0xB7 : Byte).val :=
  get_opcode_escape_low_byte.1 [0x0F, 0xB7] 0 0xB7 (by decide) (by decide)

/-- C14 as stated fails: for `0F B6` the opcode value is `0xB60F`, whose high
byte is B6 and not the escape marker 0F, and whose low byte is 0F and not the
following byte B6. -/
theorem get_opcode_escape_high_byte :
    get_opcode [0x0F, 0xB6] 0 = some (2, 0xB60F) ∧ 0xB60F / 256 = 0xB6 ∧
      ¬ (0xB60F / 256 = 0x0F) ∧ ¬ (0xB60F % 256 = 0xB6) ∧
      0xB60F ∈ reg_rop Build.i386 ∧ 0x0FB6 ∉ reg_rop Build.i386 := by
  decide

/-! ## The register index and the register-operand width -/

theorem get_ins_reg_val_of_head (b : Build) (bs : List Byte) (regs : pt_regs) (pf : Prefixes)
    (op p w : Nat) (m : Byte) (hd : decode_head b bs = some (pf, op, p))
    (htab : in_table op (reg_rop b) = true ∨ in_table op (reg_wop b) = true)
    (hm : bs[p]? = some m) (hw : get_ins_reg_width b bs = some w) :
    get_ins_reg_val b bs regs =
      if w = 1 then deref regs 1 (get_reg_w8 b ((m.val / 8 % 8 + 8 * pf.rexr : Nat) : Int))
      else if w = 2 then
        deref regs 2 (get_reg_w32 b ((m.val / 8 % 8 + 8 * pf.rexr : Nat) : Int))
      else if w = 4 then
        deref regs 4 (get_reg_w32 b ((m.val / 8 % 8 + 8 * pf.rexr : Nat) : Int))
      else if b = Build.amd64 ∧ w = 8 then
        deref regs 8 (get_reg_w32 b ((m.val / 8 % 8 + 8 * pf.rexr : Nat) : Int))
      else some 0 := by
  obtain ⟨len, _, hpf, _⟩ := decode_head_some hd
  have hr := rexr_cases b (prefix_run b bs)
  rw [← hpf] at hr
  have hidx := reg_index_eq m pf.rexr (by rcases hr with h | h; exact Or.inl h; exact Or.inr h.1)
  have htab2 : (in_table op (reg_rop b) || in_table op (reg_wop b)) = true := by
    rw [Bool.or_eq_true]
    exact htab
  rw [get_ins_reg_val, hd]
  simp only [htab2, if_true, hm, hw, hidx]

/-- C15: for every register instruction with ModRM byte `m`, the index that
`get_ins_reg_val` computes, `((m >> 3) & 7) | (rexr << 3)`, equals
`(bits 3-5 of m) + 8 * rexr`; it is below 16, below 8 in the 32-bit build, and
at least 8 exactly when the build is the 64-bit one and a REX prefix with the R
bit (44..47 or 4C..4F) is in the prefix run; `get_ins_reg_val` returns the
register that `get_reg_w8` (width 1) or `get_reg_w32` (widths 2, 4, 8) yields
for that index.  In the 64-bit build `44 89 m` gives the low 32 bits of
`r8..r15` selected by the register field of `m`, and `89 m` the low 32 bits of
the legacy register it selects. -/
theorem register_index_decoding :
    (∀ (b : Build) (bs : List Byte) (regs : pt_regs) (pf : Prefixes) (op p w : Nat) (m : Byte),
      decode_head b bs = some (pf, op, p) →
      (op ∈ reg_rop b ∨ op ∈ reg_wop b) →
      bs[p]? = some m →
      get_ins_reg_width b bs = some w →
      ((m.val >>> 3) &&& 0x7) ||| (pf.rexr <<< 3) = m.val / 8 % 8 + 8 * pf.rexr ∧
      m.val / 8 % 8 + 8 * pf.rexr < 16 ∧
      (b = Build.i386 → m.val / 8 % 8 + 8 * pf.rexr < 8) ∧
      (8 ≤ m.val / 8 % 8 + 8 * pf.rexr ↔
        (b = Build.amd64 ∧ ∃ x ∈ prefix_run b bs,
          (0x44 ≤ x.val ∧ x.val ≤ 0x47) ∨ (0x4C ≤ x.val ∧ x.val ≤ 0x4F))) ∧
      get_ins_reg_val b bs regs =
        if w = 1 then
          deref regs 1 (get_reg_w8 b ((m.val / 8 % 8 + 8 * pf.rexr : Nat) : Int))
        else if w = 2 then
          deref regs 2 (get_reg_w32 b ((m.val / 8 % 8 + 8 * pf.rexr : Nat) : Int))
        else if w = 4 then
          deref regs 4 (get_reg_w32 b ((m.val / 8 % 8 + 8 * pf.rexr : Nat) : Int))
        else if b = Build.amd64 ∧ w = 8 then
          deref regs 8 (get_reg_w32 b ((m.val / 8 % 8 + 8 * pf.rexr : Nat) : Int))
        else some 0) ∧
    (∀ (m : Byte) (regs : pt_regs),
      get_ins_reg_val Build.amd64 [0x44, 0x89, m] regs =
        some ([regs.r8, regs.r9, regs.r10, regs.r11, regs.r12, regs.r13, regs.r14,
          regs.r15].getD (m.val / 8 % 8) 0 % 2 ^ 32) ∧
      get_ins_reg_val Build.amd64 [0x89, m] regs =
        some ([regs.ax, regs.cx, regs.dx, regs.bx, regs.sp, regs.bp, regs.si,
          regs.di].getD (m.val / 8 % 8) 0 % 2 ^ 32)) := by
  constructor
  · intro b bs regs pf op p w m hd hop hm hw
    obtain ⟨len, _, hpf, _⟩ := decode_head_some hd
    have hr := rexr_cases b (prefix_run b bs)
    have hre := rexr_eq b (prefix_run b bs)
    rw [← hpf] at hr hre
    have hf : m.val / 8 % 8 < 8 := Nat.mod_lt _ (by norm_num)
    refine ⟨reg_index_eq m pf.rexr (by rcases hr with h | h; exact Or.inl h; exact Or.inr h.1),
      by omega, ?_, ?_, ?_⟩
    · intro hb
      rcases hr with h | h
      · omega
      · rw [hb] at h
        cases h.2
    · constructor
      · intro h8
        by_contra hne
        rw [hre, if_neg hne] at hr
        rw [hre, if_neg hne] at h8
        omega
      · intro hx
        rw [hre, if_pos hx]
        omega
    · exact get_ins_reg_val_of_head b bs regs pf op p w m hd
        (by rw [in_table_iff, in_table_iff]; exact hop) hm hw
  · intro m regs
    have hf : m.val / 8 % 8 < 8 := Nat.mod_lt _ (by norm_num)
    constructor
    · have hd : decode_head Build.amd64 [0x44, 0x89, m] =
          some ({ len := 1, shorted := 0, enlarged := 0, rexr := 1 }, 0x89, 2) := by
        rfl
      have hw : get_ins_reg_width Build.amd64 [0x44, 0x89, m] = some 4 := by
        rfl
      rw [get_ins_reg_val_of_head Build.amd64 _ regs _ _ _ 4 m hd (Or.inr (by decide)) rfl hw]
      have key := deref_w32 Build.amd64 regs 4 (m.val / 8 % 8) 1 hf (Or.inr ⟨rfl, rfl⟩)
      simp only [if_neg (by decide : ¬ (4 = 1)), if_neg (by decide : ¬ (4 = 2)), if_true]
      rw [key]
      generalize m.val / 8 % 8 = f at hf
      interval_cases f <;> rfl
    · have hd : decode_head Build.amd64 [0x89, m] =
          some ({ len := 0, shorted := 0, enlarged := 0, rexr := 0 }, 0x89, 1) := by
        rfl
      have hw : get_ins_reg_width Build.amd64 [0x89, m] = some 4 := by
        rfl
      rw [get_ins_reg_val_of_head Build.amd64 _ regs _ _ _ 4 m hd (Or.inr (by decide)) rfl hw]
      have key := deref_w32 Build.amd64 regs 4 (m.val / 8 % 8) 0 hf (Or.inl rfl)
      simp only [if_neg (by decide : ¬ (4 = 1)), if_neg (by decide : ¬ (4 = 2)), if_true]
      rw [key]
      generalize m.val / 8 % 8 = f at hf
      interval_cases f <;> rfl

/-- Witness for C15: in the 64-bit build `44 89 10` (REX.R, register field 2)
has the index 10. -/
theorem register_index_decoding_witness :
    (0x10 : Byte).val / 8 % 8 + 8 * 1 < 16 ∧
    (8 ≤ (0x10 : Byte).val / 8 % 8 + 8 * 1 ↔
      (Build.amd64 = Build.amd64 ∧ ∃ x ∈ prefix_run Build.amd64 [0x44, 0x89, 0x10],
        (0x44 ≤ x.val ∧ x.val ≤ 0x47) ∨ (0x4C ≤ x.val ∧ x.val ≤ 0x4F))) := by
  have h := register_index_decoding.1 Build.amd64 [0x44, 0x89, 0x10] snapshot_example
    { len := 1, shorted := 0, enlarged := 0, rexr := 1 } 0x89 2 4 0x10 (by decide)
    (Or.inr (by decide)) (by decide) (by decide)
  exact ⟨h.2.1, h.2.2.2.1⟩

/-- C16: with `op` the opcode read after the prefix run, `get_ins_reg_width`
returns 1 for 88, 8A, C6; for 89, 8B, C7, 0F B6, 0F B7, 0F BE, 0F BF it returns
2 when the byte 66 is in the prefix run (whether or not a REX.W prefix is
there too), else 8 when the build is the 64-bit one and a byte 48..4F is in the
run, else 4; and it returns 0 for every other opcode. -/
theorem get_ins_reg_width_by_opcode (b : Build) (bs : List Byte) (len op : Nat)
    (h : get_opcode bs (prefix_run b bs).length = some (len, op)) :
    (op ∈ [0x88, 0x8A, 0xC6] → get_ins_reg_width b bs = some 1) ∧
    (op ∈ [0x89, 0x8B, 0xC7, 0xB60F, 0xB70F, 0xBE0F, 0xBF0F] →
      ((0x66 : Byte) ∈ prefix_run b bs → get_ins_reg_width b bs = some 2) ∧
      ((0x66 : Byte) ∉ prefix_run b bs → b = Build.amd64 →
        (∃ x ∈ prefix_run b bs, 0x48 ≤ x.val ∧ x.val ≤ 0x4F) →
        get_ins_reg_width b bs = some 8) ∧
      ((0x66 : Byte) ∉ prefix_run b bs →
        ¬ (b = Build.amd64 ∧ ∃ x ∈ prefix_run b bs, 0x48 ≤ x.val ∧ x.val ≤ 0x4F) →
        get_ins_reg_width b bs = some 4)) ∧
    (op ∉ [0x88, 0x8A, 0xC6, 0x89, 0x8B, 0xC7, 0xB60F, 0xB70F, 0xBE0F, 0xBF0F] →
      get_ins_reg_width b bs = some 0) := by
  rw [get_ins_reg_width_of_opcode b bs len op h]
  have hs := shorted_ne_zero_iff b (prefix_run b bs)
  have he := enlarged_ne_zero_iff b (prefix_run b bs)
  refine ⟨fun h8 => ?_, fun h32 => ?_, fun hno => ?_⟩
  · rw [if_pos h8]
  · have hn8 : op ∉ [0x88, 0x8A, 0xC6] := by
      simp only [List.mem_cons, List.mem_singleton, List.not_mem_nil, or_false] at h32 ⊢
      omega
    rw [if_neg hn8, if_pos h32]
    refine ⟨fun h66 => ?_, fun h66 hb hw => ?_, fun h66 hw => ?_⟩
    · rw [if_pos (hs.2 h66)]
    · rw [if_neg (fun hc => h66 (hs.1 hc)), if_pos (he.2 ⟨hb, hw⟩)]
    · rw [if_neg (fun hc => h66 (hs.1 hc)), if_neg (fun hc => hw (he.1 hc))]
  · have hn8 : op ∉ [0x88, 0x8A, 0xC6] := by
      simp only [List.mem_cons, List.mem_singleton, List.not_mem_nil, or_false] at hno ⊢
      omega
    have hn32 : op ∉ [0x89, 0x8B, 0xC7, 0xB60F, 0xB70F, 0xBE0F, 0xBF0F] := by
      simp only [List.mem_cons, List.mem_singleton, List.not_mem_nil, or_false] at hno ⊢
      omega
    rw [if_neg hn8, if_neg hn32]

/-- Witness for C16: in the 64-bit build `66 48 0F B6` (both the 66 and the
REX.W prefix) has the register-operand width 2. -/
theorem get_ins_reg_width_by_opcode_witness :
    get_ins_reg_width Build.amd64 [0x66, 0x48, 0x0F, 0xB6, 0x00] = some 2 :=
  ((get_ins_reg_width_by_opcode Build.amd64 [0x66, 0x48, 0x0F, 0xB6, 0x00] 2 0xB60F
    (by decide)).2.1 (by decide)).1 (by decide)

/-- C17 (as the code has it): for every instruction whose opcode is 0F B6,
0F B7, 0F BE or 0F BF, in both builds, `get_ins_mem_width` and
`get_ins_reg_width` both return, the memory width is at most the register
width, and it is strictly smaller except when the opcode is 0F B7 or 0F BF and
the byte 66 is in the prefix run, where both are 2. -/
theorem extending_move_widths (b : Build) (bs : List Byte) (y : Byte)
    (h0 : bs[(prefix_run b bs).length]? = some 0x0F)
    (h1 : bs[(prefix_run b bs).length + 1]? = some y)
    (hy : y = 0xB6 ∨ y = 0xB7 ∨ y = 0xBE ∨ y = 0xBF) :
    ∃ mw rw, get_ins_mem_width b bs = some mw ∧ get_ins_reg_width b bs = some rw ∧
      mw ≤ rw ∧
      (((y = 0xB7 ∨ y = 0xBF) ∧ (0x66 : Byte) ∈ prefix_run b bs) → mw = 2 ∧ rw = 2) ∧
      (¬ ((y = 0xB7 ∨ y = 0xBF) ∧ (0x66 : Byte) ∈ prefix_run b bs) → mw < rw) := by
  have hop := get_opcode_two bs _ _ y h0 rfl h1
  have hs := shorted_ne_zero_iff b (prefix_run b bs)
  rw [get_ins_mem_width_of_opcode b bs 2 _ hop, get_ins_reg_width_of_opcode b bs 2 _ hop]
  refine ⟨_, _, rfl, rfl, ?_⟩
  by_cases h66 : (0x66 : Byte) ∈ prefix_run b bs
  · have s1 := hs.2 h66
    rcases hy with rfl | rfl | rfl | rfl <;>
      simp [Fin.coe_ofNat_eq_mod, s1, h66]
  · have s1 : ¬ (run_info b (prefix_run b bs)).shorted ≠ 0 := fun hc => h66 (hs.1 hc)
    rcases hy with rfl | rfl | rfl | rfl <;>
      simp only [Fin.coe_ofNat_eq_mod, s1, h66, and_false, not_false_eq_true, false_implies,
        true_implies, forall_true_left, if_false] <;>
      norm_num <;> split_ifs <;> omega

/-- Witness for C17: in the 32-bit build `0F B6` has the memory width 1 and
the register width 4. -/
theorem extending_move_widths_witness :
    ∃ mw rw, get_ins_mem_width Build.i386 [0x0F, 0xB6, 0x00] = some mw ∧
      get_ins_reg_width Build.i386 [0x0F, 0xB6, 0x00] = some rw ∧ mw ≤ rw ∧
      ((((0xB6 : Byte) = 0xB7 ∨ (0xB6 : Byte) = 0xBF) ∧
        (0x66 : Byte) ∈ prefix_run Build.i386 [0x0F, 0xB6, 0x00]) → mw = 2 ∧ rw = 2) ∧
      (¬ (((0xB6 : Byte) = 0xB7 ∨ (0xB6 : Byte) = 0xBF) ∧
        (0x66 : Byte) ∈ prefix_run Build.i386 [0x0F, 0xB6, 0x00]) → mw < rw) :=
  extending_move_widths Build.i386 [0x0F, 0xB6, 0x00] 0xB6 (by decide) (by decide)
    (Or.inl rfl)

/-- C17 as stated fails: for `66 0F B7` the memory width and the register width
are both 2. -/
theorem extending_move_equal_widths :
    get_ins_mem_width Build.i386 [0x66, 0x0F, 0xB7, 0x00] = some 2 ∧
    get_ins_reg_width Build.i386 [0x66, 0x0F, 0xB7, 0x00] = some 2 ∧
    get_ins_mem_width Build.amd64 [0x66, 0x0F, 0xB7, 0x00] = some 2 ∧
    get_ins_reg_width Build.amd64 [0x66, 0x0F, 0xB7, 0x00] = some 2 ∧
    ¬ (2 < 2) := by
  decide

/-! ## Register lookup and the error paths -/

theorem get_reg_w8_none_iff (b : Build) (no : Int) :
    get_reg_w8 b no = none ↔
      (no < 0 ∨ 7 < no) ∧ ¬ (b = Build.amd64 ∧ 0 ≤ no ∧ no ≤ 15) := by
  by_cases hr : 0 ≤ no ∧ no ≤ 15
  · obtain ⟨h0, h15⟩ := hr
    interval_cases no <;> cases b <;> decide
  · have hne : ∀ k : Int, 0 ≤ k → k ≤ 15 → ¬ no = k :=
      fun k h0 h15 hk => hr ⟨hk ▸ h0, hk ▸ h15⟩
    have hnone : get_reg_w8 b no = none := by
      simp only [get_reg_w8, arg_AL, arg_BL, arg_CL, arg_DL, arg_AH, arg_BH, arg_CH, arg_DH,
        arg_R8, arg_R9, arg_R10, arg_R11, arg_R12, arg_R13, arg_R14, arg_R15,
        hne 0 (by decide) (by decide), hne 1 (by decide) (by decide),
        hne 2 (by decide) (by decide), hne 3 (by decide) (by decide),
        hne 4 (by decide) (by decide), hne 5 (by decide) (by decide),
        hne 6 (by decide) (by decide), hne 7 (by decide) (by decide),
        hne 8 (by decide) (by decide), hne 9 (by decide) (by decide),
        hne 10 (by decide) (by decide), hne 11 (by decide) (by decide),
        hne 12 (by decide) (by decide), hne 13 (by decide) (by decide),
        hne 14 (by decide) (by decide), hne 15 (by decide) (by decide), and_false, if_false]
    rw [hnone]
    constructor
    · intro _
      exact ⟨by omega, fun hc => hr hc.2⟩
    · intro _
      rfl

theorem get_reg_w32_none_iff (b : Build) (no : Int) :
    get_reg_w32 b no = none ↔
      (no < 0 ∨ 7 < no) ∧ ¬ (b = Build.amd64 ∧ 0 ≤ no ∧ no ≤ 15) := by
  by_cases hr : 0 ≤ no ∧ no ≤ 15
  · obtain ⟨h0, h15⟩ := hr
    interval_cases no <;> cases b <;> decide
  · have hne : ∀ k : Int, 0 ≤ k → k ≤ 15 → ¬ no = k :=
      fun k h0 h15 hk => hr ⟨hk ▸ h0, hk ▸ h15⟩
    have hnone : get_reg_w32 b no = none := by
      simp only [get_reg_w32, arg_AX, arg_BX, arg_CX, arg_DX, arg_SP, arg_BP, arg_SI, arg_DI,
        arg_R8, arg_R9, arg_R10, arg_R11, arg_R12, arg_R13, arg_R14, arg_R15,
        hne 0 (by decide) (by decide), hne 1 (by decide) (by decide),
        hne 2 (by decide) (by decide), hne 3 (by decide) (by decide),
        hne 4 (by decide) (by decide), hne 5 (by decide) (by decide),
        hne 6 (by decide) (by decide), hne 7 (by decide) (by decide),
        hne 8 (by decide) (by decide), hne 9 (by decide) (by decide),
        hne 10 (by decide) (by decide), hne 11 (by decide) (by decide),
        hne 12 (by decide) (by decide), hne 13 (by decide) (by decide),
        hne 14 (by decide) (by decide), hne 15 (by decide) (by decide), and_false, if_false]
    rw [hnone]
    constructor
    · intro _
      exact ⟨by omega, fun hc => hr hc.2⟩
    · intro _
      rfl

/-- C20: in the 32-bit build `get_reg_w8` and `get_reg_w32` return `NULL`
exactly for the indices outside 0..7 (so for 8..15 too); in the 64-bit build
they return `NULL` exactly for the indices outside 0..15 and a register for
every index in 0..15. -/
theorem register_lookup_range (no : Int) :
    (get_reg_w8 Build.i386 no = none ↔ (no < 0 ∨ 7 < no)) ∧
    (get_reg_w32 Build.i386 no = none ↔ (no < 0 ∨ 7 < no)) ∧
    (8 ≤ no → no ≤ 15 →
      get_reg_w8 Build.i386 no = none ∧ get_reg_w32 Build.i386 no = none) ∧
    (get_reg_w8 Build.amd64 no = none ↔ (no < 0 ∨ 15 < no)) ∧
    (get_reg_w32 Build.amd64 no = none ↔ (no < 0 ∨ 15 < no)) ∧
    (0 ≤ no → no ≤ 15 →
      (get_reg_w8 Build.amd64 no).isSome = true ∧
      (get_reg_w32 Build.amd64 no).isSome = true) := by
  have a8 := get_reg_w8_none_iff Build.i386 no
  have a32 := get_reg_w32_none_iff Build.i386 no
  have b8 := get_reg_w8_none_iff Build.amd64 no
  have b32 := get_reg_w32_none_iff Build.amd64 no
  simp only [reduceCtorEq, false_and, not_false_eq_true, and_true, true_and] at a8 a32 b8 b32
  refine ⟨a8, a32, fun h1 h2 => ⟨a8.2 (by omega), a32.2 (by omega)⟩, ?_, ?_, fun h1 h2 => ⟨?_, ?_⟩⟩
  · rw [b8]
    omega
  · rw [b32]
    omega
  · rw [Option.isSome_iff_ne_none, Ne, b8]
    omega
  · rw [Option.isSome_iff_ne_none, Ne, b32]
    omega

/-- Witness for C20: the extended index 9 in both builds. -/
theorem register_lookup_range_witness :
    (get_reg_w8 Build.i386 9 = none ∧ get_reg_w32 Build.i386 9 = none) ∧
    ((get_reg_w8 Build.amd64 9).isSome = true ∧ (get_reg_w32 Build.amd64 9).isSome = true) :=
  ⟨(register_lookup_range 9).2.2.1 (by decide) (by decide),
    (register_lookup_range 9).2.2.2.2.2 (by decide) (by decide)⟩

theorem type_tables {b : Build} {bs : List Byte} {t : reason_type}
    (h : get_ins_type b bs = some t) :
    ∃ pf op p, decode_head b bs = some (pf, op, p) ∧
      (t = reason_type.REG_READ ↔ in_table op (reg_rop b) = true) ∧
      (t = reason_type.REG_WRITE ↔
        (in_table op (reg_rop b) = false ∧ in_table op (reg_wop b) = true)) ∧
      (t = reason_type.IMM_WRITE ↔
        (in_table op (reg_rop b) = false ∧ in_table op (reg_wop b) = false ∧
          in_table op (imm_wop b) = true)) := by
  rw [get_ins_type] at h
  rcases hd : decode_head b bs with _ | ⟨pf, op, p⟩
  · rw [hd] at h
    cases h
  · rw [hd] at h
    simp only at h
    refine ⟨pf, op, p, rfl, ?_⟩
    split_ifs at h with h1 h2 h3 <;>
      simp only [Option.some.injEq] at h <;> subst h <;> simp_all

/-- C21: for every byte sequence that `get_ins_type` classifies as neither
`REG_READ` nor `REG_WRITE`, `get_ins_reg_val` returns 0 for every snapshot, and
for every byte sequence that `get_ins_type` classifies as something other than
`IMM_WRITE`, `get_ins_imm_val` returns 0. -/
theorem silent_zero (b : Build) (bs : List Byte) (regs : pt_regs) (t : reason_type)
    (h : get_ins_type b bs = some t) :
    (t ≠ reason_type.REG_READ → t ≠ reason_type.REG_WRITE →
      get_ins_reg_val b bs regs = some 0) ∧
    (t ≠ reason_type.IMM_WRITE → get_ins_imm_val b bs = some 0) := by
  obtain ⟨pf, op, p, hd, hr, hw, hi⟩ := type_tables h
  constructor
  · intro h1 h2
    have n1 : in_table op (reg_rop b) = false := by
      rcases hc : in_table op (reg_rop b) with _ | _
      · rfl
      · exact absurd (hr.2 hc) h1
    have n2 : in_table op (reg_wop b) = false := by
      rcases hc : in_table op (reg_wop b) with _ | _
      · rfl
      · exact absurd (hw.2 ⟨n1, hc⟩) h2
    rw [get_ins_reg_val, hd]
    simp [n1, n2]
  · intro h3
    have n3 : in_table op (imm_wop b) = false := by
      rcases hc : in_table op (imm_wop b) with _ | _
      · rfl
      · exfalso
        rcases h1 : in_table op (reg_rop b) with _ | _
        · rcases h2 : in_table op (reg_wop b) with _ | _
          · exact h3 (hi.2 ⟨h1, h2, hc⟩)
          · cases b <;> simp [reg_wop, imm_wop, in_table] at h2 hc <;> omega
        · cases b <;> simp [reg_rop, imm_wop, in_table] at h1 hc <;> omega
    rw [get_ins_imm_val, hd]
    simp [n3]

/-- Witness for C21: the register write `89 08` has no immediate, and the
immediate write `C6 00 7F` has no register value. -/
theorem silent_zero_witness :
    get_ins_imm_val Build.amd64 [0x89, 0x08] = some 0 ∧
      get_ins_reg_val Build.amd64 [0xC6, 0x00, 0x7F] snapshot_example = some 0 :=
  ⟨(silent_zero Build.amd64 [0x89, 0x08] snapshot_example reason_type.REG_WRITE
      (by decide)).2 (by decide),
    (silent_zero Build.amd64 [0xC6, 0x00, 0x7F] snapshot_example reason_type.IMM_WRITE
      (by decide)).1 (by decide) (by decide)⟩

theorem deref_lt (regs : pt_regs) (w : Nat) (q : Option RegPtr) (v : Nat)
    (h : deref regs w q = some v) : v < 2 ^ (8 * w) := by
  have hpow : (256 : Nat) ^ w = 2 ^ (8 * w) := by
    rw [pow_mul]
    norm_num
  rcases q with _ | q
  · simp [deref] at h
  · simp only [deref, Option.some.injEq] at h
    rw [← h, ← hpow]
    exact Nat.mod_lt _ (by positivity)

theorem reg_width_of_register_op (b : Build) (bs : List Byte) (len op : Nat)
    (hop : get_opcode bs (prefix_run b bs).length = some (len, op))
    (htab : op ∈ reg_rop b ∨ op ∈ reg_wop b) :
    ∃ w, get_ins_reg_width b bs = some w ∧
      (w = 1 ∨ w = 2 ∨ w = 4 ∨ (w = 8 ∧ b = Build.amd64)) := by
  rw [get_ins_reg_width_of_opcode b bs len op hop]
  have he := enlarged_ne_zero_iff b (prefix_run b bs)
  have hmem : op = 0x8A ∨ op = 0x8B ∨ op = 0xB60F ∨ op = 0xB70F ∨ op = 0xBE0F ∨ op = 0xBF0F ∨
      op = 0x88 ∨ op = 0x89 := by
    cases b <;>
      simp only [reg_rop, reg_wop, List.mem_cons, List.mem_singleton, List.not_mem_nil,
        or_false] at htab <;>
      omega
  refine ⟨_, rfl, ?_⟩
  by_cases h8 : op ∈ [0x88, 0x8A, 0xC6]
  · rw [if_pos h8]
    exact Or.inl rfl
  · have h32 : op ∈ [0x89, 0x8B, 0xC7, 0xB60F, 0xB70F, 0xBE0F, 0xBF0F] := by
      simp only [List.mem_cons, List.mem_singleton, List.not_mem_nil, or_false] at h8 ⊢
      omega
    rw [if_neg h8, if_pos h32]
    split_ifs with h1 h2
    · exact Or.inr (Or.inl rfl)
    · exact Or.inr (Or.inr (Or.inr ⟨rfl, (he.1 h2).1⟩))
    · exact Or.inr (Or.inr (Or.inl rfl))

/-- C22: for every instruction whose opcode is in `reg_rop` or `reg_wop`, in
both builds and for every prefix run and ModRM byte `m`: `get_ins_reg_width`
returns 1, 2, 4 or (64-bit build only) 8, the lookups `get_reg_w8` and
`get_reg_w32` for the decoded index `((m >> 3) & 7) | (rexr << 3)` are not
`NULL`, and `get_ins_reg_val` returns a value (no `NULL` pointer is
dereferenced). -/
theorem register_paths_safe (b : Build) (bs : List Byte) (regs : pt_regs) (pf : Prefixes)
    (op p : Nat) (m : Byte) (hd : decode_head b bs = some (pf, op, p))
    (hop : op ∈ reg_rop b ∨ op ∈ reg_wop b) (hm : bs[p]? = some m) :
    (∃ w, get_ins_reg_width b bs = some w ∧
      (w = 1 ∨ w = 2 ∨ w = 4 ∨ (w = 8 ∧ b = Build.amd64))) ∧
    (get_reg_w8 b ((((m.val >>> 3) &&& 0x7) ||| (pf.rexr <<< 3) : Nat) : Int)).isSome = true ∧
    (get_reg_w32 b ((((m.val >>> 3) &&& 0x7) ||| (pf.rexr <<< 3) : Nat) : Int)).isSome = true ∧
    ∃ v, get_ins_reg_val b bs regs = some v := by
  obtain ⟨len, hopc, hpf, _⟩ := decode_head_some hd
  have hr := rexr_cases b (prefix_run b bs)
  rw [← hpf] at hr
  have hidx := reg_index_eq m pf.rexr (by rcases hr with h | h; exact Or.inl h; exact Or.inr h.1)
  have hf : m.val / 8 % 8 < 8 := Nat.mod_lt _ (by norm_num)
  obtain ⟨w, hw, hwv⟩ := reg_width_of_register_op b bs len op hopc hop
  have h8 : get_reg_w8 b ((m.val / 8 % 8 + 8 * pf.rexr : Nat) : Int) ≠ none := by
    rw [Ne, get_reg_w8_none_iff]
    rcases hr with h | h
    · rw [h]
      omega
    · rw [h.1]
      intro hc
      exact hc.2 ⟨h.2, by omega, by omega⟩
  have h32 : get_reg_w32 b ((m.val / 8 % 8 + 8 * pf.rexr : Nat) : Int) ≠ none := by
    rw [Ne, get_reg_w32_none_iff]
    rcases hr with h | h
    · rw [h]
      omega
    · rw [h.1]
      intro hc
      exact hc.2 ⟨h.2, by omega, by omega⟩
  rw [hidx]
  refine ⟨⟨w, hw, hwv⟩, Option.isSome_iff_ne_none.2 h8, Option.isSome_iff_ne_none.2 h32, ?_⟩
  rw [get_ins_reg_val_of_head b bs regs pf op p w m hd
    (by rw [in_table_iff, in_table_iff]; exact hop) hm hw]
  obtain ⟨q8, hq8⟩ := Option.ne_none_iff_exists'.1 h8
  obtain ⟨q32, hq32⟩ := Option.ne_none_iff_exists'.1 h32
  rw [hq8, hq32]
  rcases hwv with rfl | rfl | rfl | ⟨rfl, rfl⟩
  · exact ⟨_, by rw [if_pos rfl]; rfl⟩
  · exact ⟨_, by rw [if_neg (by decide), if_pos rfl]; rfl⟩
  · exact ⟨_, by rw [if_neg (by decide), if_neg (by decide), if_pos rfl]; rfl⟩
  · exact ⟨_, by
      rw [if_neg (by decide), if_neg (by decide), if_neg (by decide), if_pos ⟨rfl, rfl⟩]
      rfl⟩

/-- Witness for C22: in the 64-bit build `4C 0F B7 F8` (REX.W and REX.R, opcode
0F B7, register field 7, index 15). -/
theorem register_paths_safe_witness :
    (∃ w, get_ins_reg_width Build.amd64 [0x4C, 0x0F, 0xB7, 0xF8] = some w ∧
      (w = 1 ∨ w = 2 ∨ w = 4 ∨ (w = 8 ∧ Build.amd64 = Build.amd64))) ∧
    (get_reg_w8 Build.amd64
      ((((0xF8 : Byte).val >>> 3) &&& 0x7) ||| (1 <<< 3) : Nat)).isSome = true ∧
    (get_reg_w32 Build.amd64
      ((((0xF8 : Byte).val >>> 3) &&& 0x7) ||| (1 <<< 3) : Nat)).isSome = true ∧
    ∃ v, get_ins_reg_val Build.amd64 [0x4C, 0x0F, 0xB7, 0xF8] snapshot_example = some v :=
  register_paths_safe Build.amd64 [0x4C, 0x0F, 0xB7, 0xF8] snapshot_example
    { len := 1, shorted := 0, enlarged := 1, rexr := 1 } 0xB70F 3 0xF8 (by decide)
    (Or.inl (by decide)) (by decide)

/-! ## Relations between the two width tables -/

/-- C24: for every instruction with opcode 88 or 89, in both builds,
`get_ins_reg_width` and `get_ins_mem_width` return the same width `w`, every
value `get_ins_reg_val` returns is below `2 ^ (8 * w)`, and it returns a value
whenever the ModRM byte is readable; and for every instruction that
`get_ins_type` classifies as something other than `OTHERS`, both width queries
return and the memory width is at most the register width. -/
theorem register_write_fits :
    (∀ (b : Build) (bs : List Byte) (x : Byte),
      bs[(prefix_run b bs).length]? = some x → (x = 0x88 ∨ x = 0x89) →
      ∃ w, get_ins_reg_width b bs = some w ∧ get_ins_mem_width b bs = some w ∧
        (∀ regs v, get_ins_reg_val b bs regs = some v → v < 2 ^ (8 * w)) ∧
        (∀ regs m, bs[(prefix_run b bs).length + 1]? = some m →
          ∃ v, get_ins_reg_val b bs regs = some v)) ∧
    (∀ (b : Build) (bs : List Byte) (t : reason_type),
      get_ins_type b bs = some t → t ≠ reason_type.OTHERS →
      ∃ mw rw, get_ins_mem_width b bs = some mw ∧ get_ins_reg_width b bs = some rw ∧
        mw ≤ rw) := by
  constructor
  · intro b bs x hx hop
    have hne : x.val ≠ 0x0F := by
      rcases hop with rfl | rfl <;> simp [Fin.coe_ofNat_eq_mod]
    have hop1 := get_opcode_one bs _ x hx hne
    have hd : decode_head b bs = some (run_info b (prefix_run b bs), x.val,
        (prefix_run b bs).length + 1) := by
      rw [decode_head_eq, hop1]
    have htab : x.val ∈ reg_rop b ∨ x.val ∈ reg_wop b := by
      right
      rcases hop with rfl | rfl <;> cases b <;> simp [reg_wop, Fin.coe_ofNat_eq_mod]
    obtain ⟨w, hw, hwv⟩ := reg_width_of_register_op b bs 1 x.val hop1 htab
    have hmw : get_ins_mem_width b bs = some w := by
      rw [← hw, get_ins_mem_width_of_opcode b bs 1 x.val hop1,
        get_ins_reg_width_of_opcode b bs 1 x.val hop1]
      rcases hop with rfl | rfl
      · simp [Fin.coe_ofNat_eq_mod]
      · cases b
        · simp [Fin.coe_ofNat_eq_mod, enlarged_i386]
        · simp [Fin.coe_ofNat_eq_mod]
    refine ⟨w, hw, hmw, ?_, ?_⟩
    · intro regs v hv
      rcases hm : bs[(prefix_run b bs).length + 1]? with _ | m
      · rw [get_ins_reg_val, hd] at hv
        have htab2 : (in_table x.val (reg_rop b) || in_table x.val (reg_wop b)) = true := by
          rw [Bool.or_eq_true, in_table_iff, in_table_iff]
          exact htab
        simp only [htab2, if_true, hm] at hv
        cases hv
      · rw [get_ins_reg_val_of_head b bs regs _ _ _ w m hd
          (by rw [in_table_iff, in_table_iff]; exact htab) hm hw] at hv
        rcases hwv with rfl | rfl | rfl | ⟨rfl, rfl⟩
        · rw [if_pos rfl] at hv
          exact deref_lt regs 1 _ v hv
        · rw [if_neg (by decide), if_pos rfl] at hv
          exact deref_lt regs 2 _ v hv
        · rw [if_neg (by decide), if_neg (by decide), if_pos rfl] at hv
          exact deref_lt regs 4 _ v hv
        · rw [if_neg (by decide), if_neg (by decide), if_neg (by decide),
            if_pos ⟨rfl, rfl⟩] at hv
          exact deref_lt regs 8 _ v hv
    · intro regs m hm
      have hsafe : ∀ (pf : Prefixes) (op p : Nat), decode_head b bs = some (pf, op, p) →
          (op ∈ reg_rop b ∨ op ∈ reg_wop b) → bs[p]? = some m →
          ∃ v, get_ins_reg_val b bs regs = some v := by
        intro pf op p hd2 hop2 hm2
        obtain ⟨len, hopc, hpf, _⟩ := decode_head_some hd2
        have hr := rexr_cases b (prefix_run b bs)
        rw [← hpf] at hr
        obtain ⟨w2, hw2, hwv2⟩ := reg_width_of_register_op b bs len op hopc hop2
        have h8 : get_reg_w8 b ((m.val / 8 % 8 + 8 * pf.rexr : Nat) : Int) ≠ none := by
          have hf : m.val / 8 % 8 < 8 := Nat.mod_lt _ (by norm_num)
          rw [Ne, get_reg_w8_none_iff]
          rcases hr with h | h
          · rw [h]
            omega
          · rw [h.1]
            intro hc
            exact hc.2 ⟨h.2, by omega, by omega⟩
        have h32 : get_reg_w32 b ((m.val / 8 % 8 + 8 * pf.rexr : Nat) : Int) ≠ none := by
          have hf : m.val / 8 % 8 < 8 := Nat.mod_lt _ (by norm_num)
          rw [Ne, get_reg_w32_none_iff]
          rcases hr with h | h
          · rw [h]
            omega
          · rw [h.1]
            intro hc
            exact hc.2 ⟨h.2, by omega, by omega⟩
        rw [get_ins_reg_val_of_head b bs regs pf op p w2 m hd2
          (by rw [in_table_iff, in_table_iff]; exact hop2) hm2 hw2]
        obtain ⟨q8, hq8⟩ := Option.ne_none_iff_exists'.1 h8
        obtain ⟨q32, hq32⟩ := Option.ne_none_iff_exists'.1 h32
        rw [hq8, hq32]
        rcases hwv2 with rfl | rfl | rfl | ⟨rfl, rfl⟩
        · exact ⟨_, by rw [if_pos rfl]; rfl⟩
        · exact ⟨_, by rw [if_neg (by decide), if_pos rfl]; rfl⟩
        · exact ⟨_, by rw [if_neg (by decide), if_neg (by decide), if_pos rfl]; rfl⟩
        · exact ⟨_, by
            rw [if_neg (by decide), if_neg (by decide), if_neg (by decide), if_pos ⟨rfl, rfl⟩]
            rfl⟩
      exact hsafe _ _ _ hd htab hm
  · intro b bs t ht hno
    rcases h : get_opcode bs (prefix_run b bs).length with _ | ⟨len, op⟩
    · rw [get_ins_type, decode_head_none _ _ h] at ht
      cases ht
    · rw [get_ins_type_of_opcode b bs len op h] at ht
      rw [get_ins_mem_width_of_opcode b bs len op h, get_ins_reg_width_of_opcode b bs len op h]
      refine ⟨_, _, rfl, rfl, ?_⟩
      have he := enlarged_i386 (prefix_run Build.i386 bs)
      rcases opcode_cases op with h | h | h | h | h | h | h | h | h | h | h
      on_goal 11 => obtain ⟨a1, a2, a3, a4, a5, a6, a7, a8, a9, a10⟩ := h
      on_goal 11 => simp [a1, a2, a3, a4, a5, a6, a7, a8, a9, a10] at ht
      on_goal 11 => exact absurd ht.symm hno
      all_goals subst h
      all_goals clear ht
      all_goals cases b <;> simp <;> split_ifs <;> omega

/-- Witness for C24: in the 64-bit build `48 89 08` has both widths 8. -/
theorem register_write_fits_witness :
    ∃ w, get_ins_reg_width Build.amd64 [0x48, 0x89, 0x08] = some w ∧
      get_ins_mem_width Build.amd64 [0x48, 0x89, 0x08] = some w ∧
      (∀ regs v, get_ins_reg_val Build.amd64 [0x48, 0x89, 0x08] regs = some v →
        v < 2 ^ (8 * w)) ∧
      (∀ regs m, ([0x48, 0x89, 0x08] : List Byte)[
          (prefix_run Build.amd64 [0x48, 0x89, 0x08]).length + 1]? = some m →
        ∃ v, get_ins_reg_val Build.amd64 [0x48, 0x89, 0x08] regs = some v) :=
  register_write_fits.1 Build.amd64 [0x48, 0x89, 0x08] 0x89 (by decide) (Or.inr rfl)

/-! ## The two builds, and REX prefixes without the W and R bits -/

theorem prefix_run_builds (bs : List Byte)
    (hrex : ∀ x ∈ prefix_run Build.amd64 bs, ¬ (0x40 ≤ x.val ∧ x.val ≤ 0x4F)) :
    prefix_run Build.i386 bs = prefix_run Build.amd64 bs := by
  induction bs with
  | nil => rfl
  | cons x rest ih =>
    by_cases hx : is_prefix_code Build.amd64 x = true
    · have hrun : prefix_run Build.amd64 (x :: rest) = x :: prefix_run Build.amd64 rest := by
        simp [prefix_run, List.takeWhile_cons, hx]
      rw [hrun] at hrex
      have hx32 : is_prefix_code Build.i386 x = true := by
        have h1 := (is_prefix_code_iff Build.amd64 x).1 hx
        rw [is_prefix_code_iff]
        rcases h1 with h1 | h1
        · exact Or.inl h1
        · exact absurd h1.2 (hrex x (List.mem_cons_self _ _))
      have hrun32 : prefix_run Build.i386 (x :: rest) = x :: prefix_run Build.i386 rest := by
        simp [prefix_run, List.takeWhile_cons, hx32]
      rw [hrun, hrun32, ih (fun y hy => hrex y (List.mem_cons_of_mem _ hy))]
    · have hx32 : ¬ is_prefix_code Build.i386 x = true := by
        intro h32
        apply hx
        rw [is_prefix_code_iff] at h32 ⊢
        rcases h32 with h1 | h1
        · exact Or.inl h1
        · cases h1.1
      have hrun : prefix_run Build.amd64 (x :: rest) = [] := by
        simp [prefix_run, List.takeWhile_cons, hx]
      have hrun32 : prefix_run Build.i386 (x :: rest) = [] := by
        simp [prefix_run, List.takeWhile_cons, hx32]
      rw [hrun, hrun32]

theorem run_info_builds (run : List Byte)
    (hrex : ∀ x ∈ run, ¬ (0x40 ≤ x.val ∧ x.val ≤ 0x4F)) :
    run_info Build.amd64 run = run_info Build.i386 run := by
  have h1 : run.any (fun x => decide (x.val &&& 0xf8 = 0x48)) = false := by
    rw [List.any_eq_false]
    intro x hx
    have := hrex x hx
    have := (rex_w_mask x)
    simp only [decide_eq_true_eq]
    omega
  have h2 : run.any (fun x => decide (x.val &&& 0xf4 = 0x44)) = false := by
    rw [List.any_eq_false]
    intro x hx
    have := hrex x hx
    have := (rex_r_mask x)
    simp only [decide_eq_true_eq]
    omega
  simp [run_info, h1, h2]

theorem deref_low32 (v1 v2 : Nat) (h : v1 % 2 ^ 32 = v2 % 2 ^ 32) :
    v1 % 256 = v2 % 256 ∧ v1 / 256 % 256 = v2 / 256 % 256 ∧ v1 % 65536 = v2 % 65536 ∧
      v1 % 4294967296 = v2 % 4294967296 := by
  norm_num at h ⊢
  omega

theorem deref_builds (regs32 regs64 : pt_regs) (f : Nat) (hf : f < 8)
    (hax : regs32.ax % 2 ^ 32 = regs64.ax % 2 ^ 32)
    (hcx : regs32.cx % 2 ^ 32 = regs64.cx % 2 ^ 32)
    (hdx : regs32.dx % 2 ^ 32 = regs64.dx % 2 ^ 32)
    (hbx : regs32.bx % 2 ^ 32 = regs64.bx % 2 ^ 32)
    (hsp : regs32.sp % 2 ^ 32 = regs64.sp % 2 ^ 32)
    (hbp : regs32.bp % 2 ^ 32 = regs64.bp % 2 ^ 32)
    (hsi : regs32.si % 2 ^ 32 = regs64.si % 2 ^ 32)
    (hdi : regs32.di % 2 ^ 32 = regs64.di % 2 ^ 32) :
    deref regs32 1 (get_reg_w8 Build.i386 ((f : Nat) : Int)) =
      deref regs64 1 (get_reg_w8 Build.amd64 ((f : Nat) : Int)) ∧
    deref regs32 2 (get_reg_w32 Build.i386 ((f : Nat) : Int)) =
      deref regs64 2 (get_reg_w32 Build.amd64 ((f : Nat) : Int)) ∧
    deref regs32 4 (get_reg_w32 Build.i386 ((f : Nat) : Int)) =
      deref regs64 4 (get_reg_w32 Build.amd64 ((f : Nat) : Int)) := by
  obtain ⟨a1, a2, a3, a4⟩ := deref_low32 _ _ hax
  obtain ⟨c1, c2, c3, c4⟩ := deref_low32 _ _ hcx
  obtain ⟨d1, d2, d3, d4⟩ := deref_low32 _ _ hdx
  obtain ⟨b1, b2, b3, b4⟩ := deref_low32 _ _ hbx
  obtain ⟨_, _, s3, s4⟩ := deref_low32 _ _ hsp
  obtain ⟨_, _, p3, p4⟩ := deref_low32 _ _ hbp
  obtain ⟨_, _, i3, i4⟩ := deref_low32 _ _ hsi
  obtain ⟨_, _, e3, e4⟩ := deref_low32 _ _ hdi
  have k8a := deref_w8 Build.i386 regs32 f hf
  have k8b := deref_w8 Build.amd64 regs64 f hf
  have k2a := deref_w32 Build.i386 regs32 2 f 0 hf (Or.inl rfl)
  have k2b := deref_w32 Build.amd64 regs64 2 f 0 hf (Or.inl rfl)
  have k4a := deref_w32 Build.i386 regs32 4 f 0 hf (Or.inl rfl)
  have k4b := deref_w32 Build.amd64 regs64 4 f 0 hf (Or.inl rfl)
  simp only [Nat.mul_zero, Nat.add_zero] at k2a k2b k4a k4b
  rw [k8a, k8b, k2a, k2b, k4a, k4b]
  interval_cases f <;>
    simp [a1, a2, a3, a4, c1, c2, c3, c4, d1, d2, d3, d4, b1, b2, b3, b4, s3, s4, p3, p4,
      i3, i4, e3, e4]

/-- C25: for every byte sequence whose prefix run (as the 64-bit build scans
it) holds no byte 40..4F, the 32-bit and the 64-bit decoder return the same
`get_ins_type`, the same `get_ins_mem_width`, the same `get_ins_imm_val`, and
the same `get_ins_reg_val` on two snapshots whose registers ax, cx, dx, bx, sp,
bp, si, di agree in their low 32 bits. -/
theorem builds_agree_without_rex (bs : List Byte) (regs32 regs64 : pt_regs)
    (hrex : ∀ x ∈ prefix_run Build.amd64 bs, ¬ (0x40 ≤ x.val ∧ x.val ≤ 0x4F))
    (hax : regs32.ax % 2 ^ 32 = regs64.ax % 2 ^ 32)
    (hcx : regs32.cx % 2 ^ 32 = regs64.cx % 2 ^ 32)
    (hdx : regs32.dx % 2 ^ 32 = regs64.dx % 2 ^ 32)
    (hbx : regs32.bx % 2 ^ 32 = regs64.bx % 2 ^ 32)
    (hsp : regs32.sp % 2 ^ 32 = regs64.sp % 2 ^ 32)
    (hbp : regs32.bp % 2 ^ 32 = regs64.bp % 2 ^ 32)
    (hsi : regs32.si % 2 ^ 32 = regs64.si % 2 ^ 32)
    (hdi : regs32.di % 2 ^ 32 = regs64.di % 2 ^ 32) :
    get_ins_type Build.i386 bs = get_ins_type Build.amd64 bs ∧
    get_ins_mem_width Build.i386 bs = get_ins_mem_width Build.amd64 bs ∧
    get_ins_imm_val Build.i386 bs = get_ins_imm_val Build.amd64 bs ∧
    get_ins_reg_val Build.i386 bs regs32 = get_ins_reg_val Build.amd64 bs regs64 := by
  have hrun := prefix_run_builds bs hrex
  have hinfo := run_info_builds (prefix_run Build.amd64 bs) hrex
  have hen : (run_info Build.amd64 (prefix_run Build.amd64 bs)).enlarged = 0 := by
    rw [hinfo]
    exact enlarged_i386 _
  have hrx : (run_info Build.amd64 (prefix_run Build.amd64 bs)).rexr = 0 := by
    rw [hinfo]
    exact rexr_i386 _
  rcases hop : get_opcode bs (prefix_run Build.amd64 bs).length with _ | ⟨len, op⟩
  · have h64 := decode_head_none Build.amd64 bs hop
    have h32 := decode_head_none Build.i386 bs (by rw [hrun]; exact hop)
    simp [get_ins_type, get_ins_mem_width, get_ins_imm_val, get_ins_reg_val, h64, h32]
  · have hop32 : get_opcode bs (prefix_run Build.i386 bs).length = some (len, op) := by
      rw [hrun]
      exact hop
    have hd64 : decode_head Build.amd64 bs =
        some (run_info Build.amd64 (prefix_run Build.amd64 bs), op,
          (prefix_run Build.amd64 bs).length + len) := by
      rw [decode_head_eq, hop]
    have hd32 : decode_head Build.i386 bs =
        some (run_info Build.amd64 (prefix_run Build.amd64 bs), op,
          (prefix_run Build.amd64 bs).length + len) := by
      rw [decode_head_eq, hop32, hrun, hinfo]
    have hty : get_ins_type Build.i386 bs = get_ins_type Build.amd64 bs := by
      rw [get_ins_type_of_opcode _ bs len op hop, get_ins_type_of_opcode _ bs len op hop32]
    have hrw : get_ins_reg_width Build.i386 bs = get_ins_reg_width Build.amd64 bs := by
      rw [get_ins_reg_width_of_opcode _ bs len op hop,
        get_ins_reg_width_of_opcode _ bs len op hop32, hrun, hinfo]
    have hmw : get_ins_mem_width Build.i386 bs = get_ins_mem_width Build.amd64 bs := by
      rw [get_ins_mem_width_of_opcode _ bs len op hop,
        get_ins_mem_width_of_opcode _ bs len op hop32, hrun, ← hinfo]
      simp only [hen, reduceCtorEq, true_and, false_and, or_false, ne_eq, not_true_eq_false,
        if_false]
      split_ifs <;> first | rfl | omega
    refine ⟨hty, hmw, ?_, ?_⟩
    · rw [get_ins_imm_val, get_ins_imm_val, hd32, hd64, hrw]
      have himm : in_table op (imm_wop Build.i386) = in_table op (imm_wop Build.amd64) := rfl
      simp only [himm, reduceCtorEq, false_and, if_false, true_and]
      rcases hw : get_ins_reg_width Build.amd64 bs with _ | w
      · rfl
      · have hw8 : w ≠ 8 := by
          rw [get_ins_reg_width_of_opcode _ bs len op hop, hen] at hw
          simp only [ne_eq, not_true_eq_false, if_false, Option.some.injEq] at hw
          split_ifs at hw <;> omega
        simp only [hw8, if_false]
    · have hrop : in_table op (reg_rop Build.i386) = in_table op (reg_rop Build.amd64) := rfl
      have hwop : in_table op (reg_wop Build.i386) = in_table op (reg_wop Build.amd64) := rfl
      by_cases htab : in_table op (reg_rop Build.amd64) = true ∨
          in_table op (reg_wop Build.amd64) = true
      · rcases hm : bs[(prefix_run Build.amd64 bs).length + len]? with _ | m
        · have htab2 : (in_table op (reg_rop Build.amd64) ||
              in_table op (reg_wop Build.amd64)) = true := by
            rw [Bool.or_eq_true]
            exact htab
          rw [get_ins_reg_val, get_ins_reg_val, hd32, hd64]
          simp only [hrop, hwop, htab2, if_true, hm]
        · rcases hw : get_ins_reg_width Build.amd64 bs with _ | w
          · have htab2 : (in_table op (reg_rop Build.amd64) ||
                in_table op (reg_wop Build.amd64)) = true := by
              rw [Bool.or_eq_true]
              exact htab
            rw [get_ins_reg_val, get_ins_reg_val, hd32, hd64, hrw]
            simp only [hrop, hwop, htab2, if_true, hm, hw]
          · have hw8 : w ≠ 8 := by
              rw [get_ins_reg_width_of_opcode _ bs len op hop, hen] at hw
              simp only [ne_eq, not_true_eq_false, if_false, Option.some.injEq] at hw
              split_ifs at hw <;> omega
            rw [get_ins_reg_val_of_head Build.amd64 bs regs64 _ op _ w m hd64 htab hm hw,
              get_ins_reg_val_of_head Build.i386 bs regs32 _ op _ w m hd32
                (by rw [hrop, hwop]; exact htab) hm (by rw [hrw]; exact hw), hrx]
            have hf : m.val / 8 % 8 < 8 := Nat.mod_lt _ (by norm_num)
            obtain ⟨k1, k2, k4⟩ := deref_builds regs32 regs64 (m.val / 8 % 8) hf hax hcx hdx
              hbx hsp hbp hsi hdi
            simp only [hw8, and_false, if_false, Nat.mul_zero, Nat.add_zero, k1, k2, k4]
      · have htab2 : (in_table op (reg_rop Build.amd64) ||
            in_table op (reg_wop Build.amd64)) = false := by
          rcases h1 : in_table op (reg_rop Build.amd64) with _ | _
          · rcases h2 : in_table op (reg_wop Build.amd64) with _ | _
            · rfl
            · exact absurd (Or.inr h2) htab
          · exact absurd (Or.inl h1) htab
        rw [get_ins_reg_val, get_ins_reg_val, hd32, hd64]
        simp only [hrop, hwop, htab2]
        rfl

/-- Witness for C25: `66 8B C1` on two snapshots that differ above bit 31 of
`ax`. -/
theorem builds_agree_without_rex_witness :
    get_ins_type Build.i386 [0x66, 0x8B, 0xC1] = get_ins_type Build.amd64 [0x66, 0x8B, 0xC1] ∧
    get_ins_mem_width Build.i386 [0x66, 0x8B, 0xC1] =
      get_ins_mem_width Build.amd64 [0x66, 0x8B, 0xC1] ∧
    get_ins_imm_val Build.i386 [0x66, 0x8B, 0xC1] =
      get_ins_imm_val Build.amd64 [0x66, 0x8B, 0xC1] ∧
    get_ins_reg_val Build.i386 [0x66, 0x8B, 0xC1] snapshot_example =
      get_ins_reg_val Build.amd64 [0x66, 0x8B, 0xC1]
        { snapshot_example with ax := 0x700001234 } :=
  builds_agree_without_rex [0x66, 0x8B, 0xC1] snapshot_example
    { snapshot_example with ax := 0x700001234 }
    (by
      have hr : prefix_run Build.amd64 [0x66, 0x8B, 0xC1] = [0x66] := by decide
      intro x hx
      rw [hr, List.mem_singleton] at hx
      subst hx
      decide)
    (by decide) (by decide) (by decide) (by decide) (by decide) (by decide) (by decide)
    (by decide)

/-- C26: in the 64-bit build, for every byte sequence `bs`, every snapshot and
every byte `x` in 40..43, the four queries return on `x :: bs` what they return
on `bs`; and for every ModRM byte `m` whose register field is in 4..7 the
byte-width instruction `x 88 m` still yields bits 8-15 of ax, cx, dx, bx
(AH, CH, DH, BH). -/
theorem plain_rex_invariance (x : Byte) (hx : 0x40 ≤ x.val ∧ x.val ≤ 0x43) :
    (∀ (bs : List Byte) (regs : pt_regs),
      get_ins_type Build.amd64 (x :: bs) = get_ins_type Build.amd64 bs ∧
      get_ins_mem_width Build.amd64 (x :: bs) = get_ins_mem_width Build.amd64 bs ∧
      get_ins_reg_val Build.amd64 (x :: bs) regs = get_ins_reg_val Build.amd64 bs regs ∧
      get_ins_imm_val Build.amd64 (x :: bs) = get_ins_imm_val Build.amd64 bs) ∧
    (∀ (m : Byte) (regs : pt_regs), 4 ≤ m.val / 8 % 8 →
      get_ins_reg_val Build.amd64 [x, 0x88, m] regs =
        some ([regs.ax, regs.cx, regs.dx, regs.bx].getD (m.val / 8 % 8 - 4) 0 / 256 % 256)) := by
  have hq : in_table x.val (prefix_codes Build.amd64) = true ∧ x.val ≠ 0x66 ∧
      ¬ (Build.amd64 = Build.amd64 ∧ x.val &&& 0xf8 = 0x48) ∧
      ¬ (Build.amd64 = Build.amd64 ∧ x.val &&& 0xf4 = 0x44) := by
    obtain ⟨h1, h2⟩ := hx
    have hw := rex_w_mask x
    have hr := rex_r_mask x
    refine ⟨?_, by omega, fun hc => ?_, fun hc => ?_⟩
    · have := (is_prefix_code_iff Build.amd64 x).2 (Or.inr ⟨rfl, by omega, by omega⟩)
      exact this
    · have := hw.1 hc.2
      omega
    · have := hr.1 hc.2
      omega
  obtain ⟨q1, q2, q3, q4⟩ := hq
  have inv : ∀ (bs : List Byte) (regs : pt_regs),
      get_ins_type Build.amd64 (x :: bs) = get_ins_type Build.amd64 bs ∧
      get_ins_mem_width Build.amd64 (x :: bs) = get_ins_mem_width Build.amd64 bs ∧
      get_ins_reg_val Build.amd64 (x :: bs) regs = get_ins_reg_val Build.amd64 bs regs ∧
      get_ins_imm_val Build.amd64 (x :: bs) = get_ins_imm_val Build.amd64 bs := by
    intro bs regs
    obtain ⟨t1, _, t3, t4, t5⟩ := queries_cons_quiet Build.amd64 x bs regs q1 q2 q3 q4
    exact ⟨t1, t3, t4, t5⟩
  refine ⟨inv, ?_⟩
  intro m regs h4
  rw [(inv [0x88, m] regs).2.2.1]
  have hf : m.val / 8 % 8 < 8 := Nat.mod_lt _ (by norm_num)
  have hd : decode_head Build.amd64 [0x88, m] =
      some ({ len := 0, shorted := 0, enlarged := 0, rexr := 0 }, 0x88, 1) := by
    rfl
  have hw : get_ins_reg_width Build.amd64 [0x88, m] = some 1 := by
    rfl
  rw [get_ins_reg_val_of_head Build.amd64 _ regs _ _ _ 1 m hd (Or.inr (by decide)) rfl hw,
    if_pos rfl]
  have key := deref_w8 Build.amd64 regs (m.val / 8 % 8) hf
  simp only [Nat.mul_zero, Nat.add_zero]
  rw [key, if_neg (by omega)]

/-- Witness for C26: in the 64-bit build `40 88 20` (register field 4) yields
bits 8-15 of `ax`. -/
theorem plain_rex_invariance_witness :
    get_ins_reg_val Build.amd64 [0x40, 0x88, 0x20] snapshot_example =
      some ([snapshot_example.ax, snapshot_example.cx, snapshot_example.dx,
        snapshot_example.bx].getD ((0x20 : Byte).val / 8 % 8 - 4) 0 / 256 % 256) :=
  (plain_rex_invariance 0x40 (by decide)).2 0x20 snapshot_example (by decide)

/-! ## The tables are disjoint, the scan is not bounded by the table -/

theorem first_match_perm {α : Type} {l l2 : List (List Nat × α)} (hp : l.Perm l2) (v : Nat)
    (d : α) (hd : l.Pairwise (fun a b => ∀ u, u ∈ a.1 → u ∉ b.1)) :
    first_match l v d = first_match l2 v d := by
  induction hp with
  | nil => rfl
  | cons x _ ih =>
    rw [List.pairwise_cons] at hd
    simp only [first_match, ih hd.2]
  | swap x y l =>
    rw [List.pairwise_cons, List.pairwise_cons] at hd
    have hxy := hd.1 x (List.mem_cons_self _ _)
    simp only [first_match]
    by_cases h1 : in_table v y.1 = true
    · have h2 : ¬ in_table v x.1 = true := by
        rw [in_table_iff] at h1 ⊢
        exact hxy v h1
      rw [if_pos h1, if_neg h2, if_pos h1]
    · rw [if_neg h1]
      by_cases h2 : in_table v x.1 = true
      · rw [if_pos h2, if_pos h2]
      · rw [if_neg h2, if_neg h2, if_neg h1]
  | trans h12 _ ih1 ih2 =>
    have hsymm : ∀ {a b : List Nat × α}, (∀ u, u ∈ a.1 → u ∉ b.1) → (∀ u, u ∈ b.1 → u ∉ a.1) :=
      fun h u hb ha => h u ha hb
    rw [ih1 hd, ih2 ((h12.pairwise_iff hsymm).1 hd)]

/-- C18: in both builds no opcode value occurs in two of the tables `reg_rop`,
`reg_wop`, `imm_wop`, in both of `rw8`, `rw32`, or in two of `mw8`, `mw16`,
`mw32`, `mw64`; `get_ins_type`, `get_ins_reg_width` and `get_ins_mem_width`
are first-match searches of these tables, and such a search gives the same
result for every order of the tables. -/
theorem tables_disjoint (b : Build) :
    (∀ v, ¬ (v ∈ reg_rop b ∧ v ∈ reg_wop b) ∧ ¬ (v ∈ reg_rop b ∧ v ∈ imm_wop b) ∧
      ¬ (v ∈ reg_wop b ∧ v ∈ imm_wop b) ∧ ¬ (v ∈ rw8 b ∧ v ∈ rw32 b) ∧
      ¬ (v ∈ mw8 b ∧ v ∈ mw16 b) ∧ ¬ (v ∈ mw8 b ∧ v ∈ mw32 b) ∧ ¬ (v ∈ mw8 b ∧ v ∈ mw64 b) ∧
      ¬ (v ∈ mw16 b ∧ v ∈ mw32 b) ∧ ¬ (v ∈ mw16 b ∧ v ∈ mw64 b) ∧
      ¬ (v ∈ mw32 b ∧ v ∈ mw64 b)) ∧
    (∀ bs, get_ins_type b bs =
      (decode_head b bs).map (fun h =>
        first_match [(reg_rop b, reason_type.REG_READ), (reg_wop b, reason_type.REG_WRITE),
          (imm_wop b, reason_type.IMM_WRITE)] h.2.1 reason_type.OTHERS)) ∧
    (∀ bs, get_ins_reg_width b bs =
      (decode_head b bs).map (fun h =>
        first_match [(rw8 b, 1),
          (rw32 b, if h.1.shorted ≠ 0 then 2 else (if h.1.enlarged ≠ 0 then 8 else 4))]
          h.2.1 0)) ∧
    (∀ bs, get_ins_mem_width b bs =
      (decode_head b bs).map (fun h =>
        first_match [(mw8 b, 1), (mw16 b, 2), (mw32 b, if h.1.shorted ≠ 0 then 2 else 4),
          (mw64 b, if h.1.shorted ≠ 0 then 2 else (if h.1.enlarged ≠ 0 then 8 else 4))]
          h.2.1 0)) ∧
    (∀ (l : List (List Nat × reason_type)) (r1 r2 r3 d : reason_type) (v : Nat),
      l.Perm [(reg_rop b, r1), (reg_wop b, r2), (imm_wop b, r3)] →
      first_match l v d = first_match [(reg_rop b, r1), (reg_wop b, r2), (imm_wop b, r3)] v d) ∧
    (∀ (l : List (List Nat × Nat)) (r1 r2 d v : Nat),
      l.Perm [(rw8 b, r1), (rw32 b, r2)] →
      first_match l v d = first_match [(rw8 b, r1), (rw32 b, r2)] v d) ∧
    (∀ (l : List (List Nat × Nat)) (r1 r2 r3 r4 d v : Nat),
      l.Perm [(mw8 b, r1), (mw16 b, r2), (mw32 b, r3), (mw64 b, r4)] →
      first_match l v d =
        first_match [(mw8 b, r1), (mw16 b, r2), (mw32 b, r3), (mw64 b, r4)] v d) := by
  have hdis : ∀ v, ¬ (v ∈ reg_rop b ∧ v ∈ reg_wop b) ∧ ¬ (v ∈ reg_rop b ∧ v ∈ imm_wop b) ∧
      ¬ (v ∈ reg_wop b ∧ v ∈ imm_wop b) ∧ ¬ (v ∈ rw8 b ∧ v ∈ rw32 b) ∧
      ¬ (v ∈ mw8 b ∧ v ∈ mw16 b) ∧ ¬ (v ∈ mw8 b ∧ v ∈ mw32 b) ∧ ¬ (v ∈ mw8 b ∧ v ∈ mw64 b) ∧
      ¬ (v ∈ mw16 b ∧ v ∈ mw32 b) ∧ ¬ (v ∈ mw16 b ∧ v ∈ mw64 b) ∧
      ¬ (v ∈ mw32 b ∧ v ∈ mw64 b) := by
    intro v
    cases b <;>
      simp only [reg_rop, reg_wop, imm_wop, rw8, rw32, mw8, mw16, mw32, mw64, List.mem_cons,
        List.mem_singleton, List.not_mem_nil, or_false, and_false, not_false_eq_true,
        and_true, true_and] <;>
      omega
  refine ⟨hdis, ?_, ?_, ?_, ?_, ?_, ?_⟩
  · intro bs
    rw [get_ins_type]
    rcases decode_head b bs with _ | ⟨pf, op, p⟩
    · rfl
    · simp only [Option.map_some', first_match]
      split_ifs <;> rfl
  · intro bs
    rw [get_ins_reg_width]
    rcases decode_head b bs with _ | ⟨pf, op, p⟩
    · rfl
    · simp only [Option.map_some', first_match]
      split_ifs <;> rfl
  · intro bs
    rw [get_ins_mem_width]
    rcases decode_head b bs with _ | ⟨pf, op, p⟩
    · rfl
    · simp only [Option.map_some', first_match]
      split_ifs <;> rfl
  · intro l r1 r2 r3 d v hp
    refine (first_match_perm hp.symm v d ?_).symm
    simp only [List.pairwise_cons, List.mem_cons, List.mem_singleton, List.not_mem_nil,
      or_false, forall_eq_or_imp, forall_eq, false_implies, implies_true, List.Pairwise.nil,
      and_true]
    exact ⟨⟨fun u h1 h2 => (hdis u).1 ⟨h1, h2⟩, fun u h1 h2 => (hdis u).2.1 ⟨h1, h2⟩⟩,
      fun u h1 h2 => (hdis u).2.2.1 ⟨h1, h2⟩⟩
  · intro l r1 r2 d v hp
    refine (first_match_perm hp.symm v d ?_).symm
    simp only [List.pairwise_cons, List.mem_cons, List.mem_singleton, List.not_mem_nil,
      or_false, forall_eq_or_imp, forall_eq, false_implies, implies_true, List.Pairwise.nil,
      and_true]
    exact fun u h1 h2 => (hdis u).2.2.2.1 ⟨h1, h2⟩
  · intro l r1 r2 r3 r4 d v hp
    refine (first_match_perm hp.symm v d ?_).symm
    simp only [List.pairwise_cons, List.mem_cons, List.mem_singleton, List.not_mem_nil,
      or_false, forall_eq_or_imp, forall_eq, false_implies, implies_true, List.Pairwise.nil,
      and_true]
    exact ⟨⟨fun u h1 h2 => (hdis u).2.2.2.2.1 ⟨h1, h2⟩,
        fun u h1 h2 => (hdis u).2.2.2.2.2.1 ⟨h1, h2⟩,
        fun u h1 h2 => (hdis u).2.2.2.2.2.2.1 ⟨h1, h2⟩⟩,
      ⟨fun u h1 h2 => (hdis u).2.2.2.2.2.2.2.1 ⟨h1, h2⟩,
        fun u h1 h2 => (hdis u).2.2.2.2.2.2.2.2.1 ⟨h1, h2⟩⟩,
      fun u h1 h2 => (hdis u).2.2.2.2.2.2.2.2.2 ⟨h1, h2⟩⟩

/-- Witness for C18: the classification tables searched in the reverse order,
on the opcode 89, in the 64-bit build. -/
theorem tables_disjoint_witness :
    first_match [(imm_wop Build.amd64, reason_type.IMM_WRITE),
        (reg_wop Build.amd64, reason_type.REG_WRITE),
        (reg_rop Build.amd64, reason_type.REG_READ)] 0x89 reason_type.OTHERS =
      first_match [(reg_rop Build.amd64, reason_type.REG_READ),
        (reg_wop Build.amd64, reason_type.REG_WRITE),
        (imm_wop Build.amd64, reason_type.IMM_WRITE)] 0x89 reason_type.OTHERS :=
  (tables_disjoint Build.amd64).2.2.2.2.1 _ _ _ _ _ 0x89
    ((List.Perm.swap _ _ _).trans (((List.Perm.swap _ _ _).cons _).trans
      (List.Perm.swap _ _ _)))

/-- C19 (as the code has it): `prefix_codes` has 13 entries in the 32-bit build
and 27 in the 64-bit build, but the number of bytes `skip_prefix` consumes is
bounded by the input only: whenever it returns it has consumed fewer bytes than
the sequence holds, and for every `n` the sequence of `n` bytes 66 followed by
90 makes it consume `n` bytes. -/
theorem skip_prefix_input_bound :
    (prefix_codes Build.i386).length = 13 ∧ (prefix_codes Build.amd64).length = 27 ∧
    (∀ (b : Build) (bs : List Byte) (pf : Prefixes),
      skip_prefix b bs = some pf → pf.len < bs.length) ∧
    (∀ (b : Build) (n : Nat), ∃ pf,
      skip_prefix b (List.replicate n (0x66 : Byte) ++ [0x90]) = some pf ∧ pf.len = n) := by
  refine ⟨rfl, rfl, ?_, ?_⟩
  · intro b bs pf h
    obtain ⟨hlt, rfl⟩ := skip_prefix_some h
    exact hlt
  · intro b n
    have hpre : ∀ x ∈ List.replicate n (0x66 : Byte), is_prefix_code b x = true := by
      intro x hx
      rw [List.eq_of_mem_replicate hx]
      cases b <;> decide
    have hy : is_prefix_code b (0x90 : Byte) = false := by
      cases b <;> decide
    have hrun := prefix_run_append b (List.replicate n (0x66 : Byte)) 0x90 [] hpre hy
    refine ⟨run_info b (List.replicate n (0x66 : Byte)), ?_, ?_⟩
    · rw [skip_prefix_eq, hrun, if_pos (by simp)]
    · simp [run_info]

/-- Witness for C19: the scan of `66 66 90` consumes 2 of its 3 bytes. -/
theorem skip_prefix_input_bound_witness :
    ({ len := 2, shorted := 1, enlarged := 0, rexr := 0 } : Prefixes).len <
      ([0x66, 0x66, 0x90] : List Byte).length :=
  skip_prefix_input_bound.2.2.1 Build.i386 [0x66, 0x66, 0x90]
    { len := 2, shorted := 1, enlarged := 0, rexr := 0 } (by decide)

/-- C19 as stated fails: in the 32-bit build the scan of fourteen bytes 66
followed by 90 consumes 14 bytes, more than the 13 entries of the table. -/
theorem skip_prefix_beyond_table :
    skip_prefix Build.i386 (List.replicate 14 (0x66 : Byte) ++ [0x90]) =
      some { len := 14, shorted := 1, enlarged := 0, rexr := 0 } ∧
    ¬ (14 ≤ (prefix_codes Build.i386).length) := by
  decide

/-- C23: the code at the failing input.  In the 64-bit build, for
`48 C7 00 00 00 00 00 01 00 00 00` (REX.W, opcode C7, ModRM 00) the instruction
is classified `IMM_WRITE`, `get_ins_mem_width` returns 4, `get_ins_reg_width`
returns 8, and `get_ins_imm_val` reads 8 bytes and returns `2 ^ 32`, which is
not below `2 ^ (8 * 4)`. -/
theorem immediate_wider_than_memory :
    get_ins_type Build.amd64 [0x48, 0xC7, 0x00, 0x00, 0x00, 0x00, 0x00, 0x01, 0x00, 0x00, 0x00]
      = some reason_type.IMM_WRITE ∧
    get_ins_mem_width Build.amd64
      [0x48, 0xC7, 0x00, 0x00, 0x00, 0x00, 0x00, 0x01, 0x00, 0x00, 0x00] = some 4 ∧
    get_ins_reg_width Build.amd64
      [0x48, 0xC7, 0x00, 0x00, 0x00, 0x00, 0x00, 0x01, 0x00, 0x00, 0x00] = some 8 ∧
    get_ins_imm_val Build.amd64
      [0x48, 0xC7, 0x00, 0x00, 0x00, 0x00, 0x00, 0x01, 0x00, 0x00, 0x00] = some (2 ^ 32) ∧
    ¬ (2 ^ 32 < 2 ^ (8 * 4)) := by
  decide

end PfIn

namespace ClockImx21

theorem div_div_div (P d : Nat) (hd : 0 < d) (hR : 0 < P / d) : P / (P / (P / d)) = P / d := by
  have h1 : d ≤ P / (P / d) := (Nat.le_div_iff_mul_le hR).2 (by
    rw [Nat.mul_comm]
    exact Nat.div_mul_le_self P d)
  have hd2 : 0 < P / (P / d) := Nat.lt_of_lt_of_le hd h1
  apply Nat.le_antisymm
  · exact Nat.div_le_div_left h1 hd
  · exact (Nat.le_div_iff_mul_le hd2).2 (Nat.mul_div_le P (P / d))

theorem round_rate_divisor (P r : Nat) (hP : 0 < P) (hP32 : P < 2 ^ 32) (hr : 0 < r) :
    ∃ d, 1 ≤ d ∧ d ≤ 64 ∧ d ≤ P ∧ _clk_perclkx_round_rate P r = some (P / d) := by
  have hle : P / r ≤ P := Nat.div_le_self P r
  have h0 : (P / r) % 2 ^ 32 = P / r := Nat.mod_eq_of_lt (by omega)
  have hr0 : ¬ r = 0 := by omega
  rw [_clk_perclkx_round_rate, if_neg hr0]
  simp only [h0]
  by_cases hrem : P % r ≠ 0
  · have hlt : P / r < P := by
      have hr1 : 1 < r := by
        by_contra hc
        have : r = 1 := by omega
        rw [this, Nat.mod_one] at hrem
        exact hrem rfl
      exact Nat.div_lt_self hP hr1
    have h1 : (P / r + 1) % 2 ^ 32 = P / r + 1 := Nat.mod_eq_of_lt (by omega)
    rw [if_pos hrem, h1]
    by_cases h64 : P / r + 1 > 64
    · refine ⟨64, by omega, by omega, by omega, ?_⟩
      rw [if_pos h64, if_neg (by decide)]
    · refine ⟨P / r + 1, by omega, by omega, by omega, ?_⟩
      rw [if_neg h64, if_neg (by omega)]
  · have hpos : 0 < P / r := by
      have hdvd : r ∣ P := Nat.dvd_of_mod_eq_zero (by omega)
      exact Nat.div_pos (Nat.le_of_dvd hP hdvd) hr
    rw [if_neg hrem]
    by_cases h64 : P / r > 64
    · refine ⟨64, by omega, by omega, by omega, ?_⟩
      rw [if_pos h64, if_neg (by decide)]
    · refine ⟨P / r, by omega, by omega, by omega, ?_⟩
      rw [if_neg h64, if_neg (by omega)]

/-- C27 (as the code has it): for every clock id in 0..3, every parent rate
`P` with `0 < P < 2 ^ 32` and every requested rate `r > 0`,
`_clk_perclkx_round_rate` returns a rate `R = P / d` for a divider `d` in
1..64, with `R > 0`; `_clk_perclkx_set_rate` accepts `R` (returns 0) when
`P / R <= 64`, and then the divider `P / R` is in 1..64 and `P / R - 1` is
written into the field of the clock; it returns `-EINVAL` and leaves the
register as it is when `P / R > 64`. -/
theorem round_rate_then_set_rate (EINVAL : Int) (mask : Nat) (id : Int) (P r reg : Nat)
    (hid : 0 ≤ id ∧ id ≤ 3) (hP : 0 < P) (hP32 : P < 2 ^ 32) (hr : 0 < r) :
    ∃ R d, _clk_perclkx_round_rate P r = some R ∧ R = P / d ∧ 1 ≤ d ∧ d ≤ 64 ∧ 0 < R ∧
      (P / R ≤ 64 →
        1 ≤ P / R ∧
        _clk_perclkx_set_rate EINVAL mask id P R reg =
          some ((0 : Int), ((reg &&& (2 ^ 32 - 1 - (mask <<< (id.toNat <<< 3)) % 2 ^ 32)) |||
            ((P / R - 1) <<< (id.toNat <<< 3))) % 2 ^ 32)) ∧
      (64 < P / R → _clk_perclkx_set_rate EINVAL mask id P R reg = some (-EINVAL, reg)) := by
  obtain ⟨d, hd1, hd64, hdP, hround⟩ := round_rate_divisor P r hP hP32 hr
  have hR : 0 < P / d := Nat.div_pos hdP (by omega)
  have hident := div_div_div P d (by omega) hR
  have hle : P / (P / d) ≤ P := Nat.div_le_self P _
  have h0 : (P / (P / d)) % 2 ^ 32 = P / (P / d) := Nat.mod_eq_of_lt (by omega)
  have hpos : 1 ≤ P / (P / d) := Nat.div_pos (Nat.div_le_self P d) hR
  have hidn : ¬ (id < 0 ∨ id > 3) := by omega
  have hR0 : ¬ P / d = 0 := by omega
  refine ⟨P / d, d, hround, rfl, hd1, hd64, hR, fun h64 => ⟨hpos, ?_⟩, fun h64 => ?_⟩
  · have hc : ¬ (P / (P / d) > 64 ∨ P / (P / d) < 1 ∨ P / (P / (P / d)) ≠ P / d) := by
      rw [hident]
      omega
    unfold _clk_perclkx_set_rate
    rw [if_neg hidn, if_neg hR0]
    simp only [h0]
    rw [if_neg hc]
  · have hc : P / (P / d) > 64 ∨ P / (P / d) < 1 ∨ P / (P / (P / d)) ≠ P / d := Or.inl h64
    unfold _clk_perclkx_set_rate
    rw [if_neg hidn, if_neg hR0]
    simp only [h0]
    rw [if_pos hc]

/-- Witness for C27: parent rate 66500000 and requested rate 16625000 (a
quarter of it) for the clock 1. -/
theorem round_rate_then_set_rate_witness :
    ∃ R d, _clk_perclkx_round_rate 66500000 16625000 = some R ∧ R = 66500000 / d ∧ 1 ≤ d ∧
      d ≤ 64 ∧ 0 < R ∧
      (66500000 / R ≤ 64 →
        1 ≤ 66500000 / R ∧
        _clk_perclkx_set_rate 22 0x3f 1 66500000 R 0 =
          some ((0 : Int), ((0 &&& (2 ^ 32 - 1 - (0x3f <<< ((1 : Int).toNat <<< 3)) % 2 ^ 32)) |||
            ((66500000 / R - 1) <<< ((1 : Int).toNat <<< 3))) % 2 ^ 32)) ∧
      (64 < 66500000 / R →
        _clk_perclkx_set_rate 22 0x3f 1 66500000 R 0 = some (-22, 0)) :=
  round_rate_then_set_rate 22 0x3f 1 66500000 16625000 0 (by decide) (by decide) (by decide)
    (by decide)

/-- C27 as stated fails: for the parent rate 100 and the requested rate 1 the
rounded rate is 1 (divider 64), and setting the rate 1 is refused with
`-EINVAL` because `100 / 1 > 64`. -/
theorem rounded_rate_refused :
    _clk_perclkx_round_rate 100 1 = some 1 ∧
    _clk_perclkx_set_rate 22 0x3f 0 100 1 0 = some (-22, 0) ∧
    ¬ (∃ reg2, _clk_perclkx_set_rate 22 0x3f 0 100 1 0 = some (0, reg2)) := by
  refine ⟨by decide, by decide, ?_⟩
  rintro ⟨reg2, h⟩
  have h2 : _clk_perclkx_set_rate 22 0x3f 0 100 1 0 = some (-22, 0) := by decide
  rw [h2] at h
  simp at h

end ClockImx21
